import Mathlib

/-!
Verification of the `retro` stock-scanner core (indicator library, pattern
catalog, monthly resampler and scan executor) against its specification.

Embedding conventions:
* Rust `f64` values are modelled as exact rationals; the NaN sentinel of the
  source is modelled by `Option ℚ` (`none` = NaN).  Arithmetic on `Option ℚ`
  propagates `none` exactly as IEEE NaN propagates through `+ - *`, and every
  comparison involving `none` is `false`, as in IEEE.  The f64 divisions that
  occur in the embedded code are all guarded by the source so that the divisor
  is a nonzero finite number; `fdiv` maps a zero divisor to `none`.
* Ingested OHLCV series hold finite prices (the ingestion collaborator owns
  that invariant), so `TickerData` fields are `List ℚ`; indicator outputs,
  which do contain NaN, are `List (Option ℚ)`.
* A Rust panic (out-of-bounds index / usize underflow, release semantics:
  wrapping arithmetic followed by a checked index) is modelled by `Option`
  results: `none` means the computation panics.
* `serde_json::Value` parameters are modelled by `JVal`; `as_u64` succeeds
  only on integer-represented numbers, `as_f64` on any number, matching serde.
* Dates are Lean `String`s compared with the string order (the byte
  lexicographic order of the source on the ASCII ISO dates in scope).
-/

namespace Retro

/-- f64 with NaN: `none` is the NaN sentinel. -/
abbrev F := Option ℚ

/-- NaN-propagating addition (f64 `+`). -/
def fadd : F → F → F
  | some a, some b => some (a + b)
  | _, _ => none

/-- NaN-propagating subtraction (f64 `-`). -/
def fsub : F → F → F
  | some a, some b => some (a - b)
  | _, _ => none

/-- NaN-propagating multiplication (f64 `*`). -/
def fmul : F → F → F
  | some a, some b => some (a * b)
  | _, _ => none

/-- NaN-propagating negation (f64 unary `-`). -/
def fneg : F → F
  | some a => some (-a)
  | none => none

/-- f64 division.  Every division reached in the embedded code has a nonzero
finite divisor (the source guards them); a zero divisor is mapped to the
undefined sentinel. -/
def fdiv : F → F → F
  | some a, some b => if b = 0 then none else some (a / b)
  | _, _ => none

/-- f64 `>`: false whenever either side is NaN. -/
def fgt : F → F → Bool
  | some a, some b => decide (a > b)
  | _, _ => false

/-- f64 `<`: false whenever either side is NaN. -/
def flt : F → F → Bool
  | some a, some b => decide (a < b)
  | _, _ => false

/-- f64 `<=`: false whenever either side is NaN. -/
def fle : F → F → Bool
  | some a, some b => decide (a ≤ b)
  | _, _ => false

/-- f64 `>=`: false whenever either side is NaN. -/
def fge : F → F → Bool
  | some a, some b => decide (a ≥ b)
  | _, _ => false

/-- Rust `iter().sum()` over f64: a left fold of `+` starting from `0.0`. -/
def fsum (l : List F) : F := l.foldl fadd (some 0)

/-- Rational stand-in for `f64::sqrt` (used only by the Bollinger band
half-width, whose numeric value no claim depends on): the floor integer square
root of `num * den` over `den`. -/
def sqrtQ (q : ℚ) : ℚ := (Nat.sqrt (q.num.toNat * q.den) : ℚ) / (q.den : ℚ)

/-- `serde_json::Value`.  Numbers keep serde's integer/float distinction
because `as_u64` succeeds only on the integer representation. -/
inductive JVal where
  | jnull : JVal
  | jbool : Bool → JVal
  | jint : Int → JVal
  | jfloat : ℚ → JVal
  | jstr : String → JVal
  | jarr : List JVal → JVal

/-- `Value::as_u64`: some only for a non-negative integer number (fits u64). -/
def asU64 : JVal → Option Nat
  | .jint n => if 0 ≤ n ∧ n < 2 ^ 64 then some n.toNat else none
  | _ => none

/-- `Value::as_f64`: any JSON number converts. -/
def asF64 : JVal → Option ℚ
  | .jint n => some (n : ℚ)
  | .jfloat q => some q
  | _ => none

/-- `Value::as_str`. -/
def asStr : JVal → Option String
  | .jstr s => some s
  | _ => none

/-- `Value::as_array`. -/
def asArr : JVal → Option (List JVal)
  | .jarr xs => some xs
  | _ => none

/-- The `HashMap<String, Value>` parameter mapping, as an association list
(one binding per key). -/
abbrev Params := List (String × JVal)

/-- `params.get(key).and_then(|v| v.as_u64()).unwrap_or(default) as usize`. -/
def getU64 (params : Params) (key : String) (default : Nat) : Nat :=
  ((params.lookup key).bind asU64).getD default

/-- `params.get(key).and_then(|v| v.as_f64()).unwrap_or(default)`. -/
def getF64 (params : Params) (key : String) (default : ℚ) : ℚ :=
  ((params.lookup key).bind asF64).getD default

/-- `params.get(key).and_then(|v| v.as_str()).unwrap_or(default)`. -/
def getStr (params : Params) (key : String) (default : String) : String :=
  ((params.lookup key).bind asStr).getD default

/-- `data.rs`: one ticker's OHLCV history.  Numeric columns hold the finite
prices produced by ingestion. -/
structure TickerData where
  date : List String
  open_ : List ℚ
  high : List ℚ
  low : List ℚ
  close : List ℚ
  volume : List ℚ
deriving DecidableEq

/-- The equal-length invariant owned by the ingestion collaborator. -/
def TickerData.WellFormed (d : TickerData) : Prop :=
  d.date.length = d.close.length ∧ d.open_.length = d.close.length ∧
  d.high.length = d.close.length ∧ d.low.length = d.close.length ∧
  d.volume.length = d.close.length

instance (d : TickerData) : Decidable d.WellFormed := by
  unfold TickerData.WellFormed; infer_instance

/-- `indicators.rs` `sma`: one rolling-sum update,
`sum += data[i] - data[i - period]`. -/
def smaNext (data : List F) (period i : Nat) (sum : F) : F :=
  fadd sum (fsub (data.getD i none) (data.getD (i - period) none))

/-- `indicators.rs` `sma`: rolling-sum loop body, producing the entries for
indices `i, i+1, …, n-1` given the running sum over the window ending at
`i-1`. -/
def smaGo (data : List F) (period : Nat) (i : Nat) (sum : F) : List F :=
  if _h : i < data.length then
    fdiv (smaNext data period i sum) (some (period : ℚ)) ::
      smaGo data period (i + 1) (smaNext data period i sum)
  else []
termination_by data.length - i

/-- `indicators.rs` `sma`: simple moving average via a running sum; all-NaN
when `period == 0` or `n < period`, NaN before index `period-1`. -/
def sma (data : List F) (period : Nat) : List F :=
  if data.length < period ∨ period = 0 then List.replicate data.length none
  else
    List.replicate (period - 1) none ++
      fdiv (fsum (data.take period)) (some (period : ℚ)) ::
        smaGo data period period (fsum (data.take period))

/-- `indicators.rs` `ema` loop body: entries for indices `i..n-1`, where
`prev` is `result[i-1]`. -/
def emaGo (data : List F) (multiplier : ℚ) (i : Nat) (prev : F) : List F :=
  if _h : i < data.length then
    let cur := fadd (fmul (fsub (data.getD i none) prev) (some multiplier)) prev
    cur :: emaGo data multiplier (i + 1) cur
  else []
termination_by data.length - i

/-- `indicators.rs` `ema`: exponential moving average seeded with the simple
mean of the first `period` elements at index `period-1`; multiplier
`2/(period+1)`. -/
def ema (data : List F) (period : Nat) : List F :=
  let n := data.length
  if n < period ∨ period = 0 then List.replicate n none
  else
    let multiplier : ℚ := 2 / ((period : ℚ) + 1)
    let first_sma := fdiv (fsum (data.take period)) (some (period : ℚ))
    List.replicate (period - 1) none ++ first_sma :: emaGo data multiplier period first_sma

/-- `indicators.rs` `rsi`: the per-index gains array (`gains[0]` stays `0.0`;
`gains[i] = change` when `change > 0.0`, else stays `0.0`). -/
def gainsOf (data : List F) : List F :=
  (List.range data.length).map fun i =>
    if i = 0 then some 0
    else
      let change := fsub (data.getD i none) (data.getD (i - 1) none)
      if fgt change (some 0) then change else some 0

/-- `indicators.rs` `rsi`: the per-index losses array (`losses[0]` stays
`0.0`; `losses[i] = -change` when `change ≤ 0.0` or is NaN, else stays
`0.0`). -/
def lossesOf (data : List F) : List F :=
  (List.range data.length).map fun i =>
    if i = 0 then some 0
    else
      let change := fsub (data.getD i none) (data.getD (i - 1) none)
      if fgt change (some 0) then some 0 else fneg change

/-- `indicators.rs` `rsi`: the value written at one index: `100.0` when the
average loss is exactly zero, else `100 - 100/(1 + avgGain/avgLoss)`. -/
def rsiVal (avgGain avgLoss : F) : F :=
  if avgLoss = some 0 then some 100
  else fsub (some 100) (fdiv (some 100) (fadd (some 1) (fdiv avgGain avgLoss)))

/-- `indicators.rs` `rsi` smoothing loop: emits the value at index `i` from
the current Wilder averages, then recurses with the averages updated by
`gains[i+1]`/`losses[i+1]`. -/
def rsiGo (gains losses : List F) (period : Nat) (i : Nat) (avgGain avgLoss : F) : List F :=
  if _h : i < gains.length then
    rsiVal avgGain avgLoss ::
      rsiGo gains losses period (i + 1)
        (fdiv (fadd (fmul avgGain (some ((period - 1 : Nat) : ℚ))) (gains.getD (i + 1) none))
          (some (period : ℚ)))
        (fdiv (fadd (fmul avgLoss (some ((period - 1 : Nat) : ℚ))) (losses.getD (i + 1) none))
          (some (period : ℚ)))
  else []
termination_by gains.length - i

/-- `indicators.rs` `rsi`: Wilder's relative strength index; all-NaN when
`n < period + 1` or `period == 0`, NaN before index `period`.  The seed
averages are the simple means of gains/losses over `[1, period]`. -/
def rsi (data : List F) (period : Nat) : List F :=
  if data.length < period + 1 ∨ period = 0 then List.replicate data.length none
  else
    List.replicate period none ++
      rsiGo (gainsOf data) (lossesOf data) period period
        (fdiv (fsum (((gainsOf data).drop 1).take period)) (some (period : ℚ)))
        (fdiv (fsum (((lossesOf data).drop 1).take period)) (some (period : ℚ)))

/-- `indicators.rs` `obv` loop body: entries for indices `i..n-1` given
`prev = result[i-1]`. -/
def obvGo (close volume : List ℚ) (i : Nat) (prev : ℚ) : List ℚ :=
  if _h : i < close.length then
    let cur :=
      if close.getD i 0 > close.getD (i - 1) 0 then prev + volume.getD i 0
      else if close.getD i 0 < close.getD (i - 1) 0 then prev - volume.getD i 0
      else prev
    cur :: obvGo close volume (i + 1) cur
  else []
termination_by close.length - i

/-- `indicators.rs` `obv`: on-balance volume, a cumulative running total
starting at `0.0`; always defined (no NaN) on the finite ingested columns. -/
def obv (close volume : List ℚ) : List ℚ :=
  if close.length = 0 then [] else 0 :: obvGo close volume 1 0

/-- `indicators.rs` `macd`: `EMA(fast) - EMA(slow)`, elementwise over the
zipped outputs. -/
def macd (data : List F) (fast slow : Nat) : List F :=
  ((ema data fast).zip (ema data slow)).map fun p => fsub p.1 p.2

/-- `indicators.rs` `macd_signal`: EMA of the MACD line. -/
def macd_signal (data : List F) (fast slow signal : Nat) : List F :=
  ema (macd data fast slow) signal

/-- `indicators.rs` `rolling_max`: trailing-window maximum over
`[i+1-period, i]`; NaN before the window fills.  The source loop starts at
`period - 1`, which for `period == 0` wraps (release semantics) to `2^64-1`,
making the loop empty, so every entry stays NaN. -/
def rolling_max (data : List ℚ) (period : Nat) : List F :=
  (List.range data.length).map fun i =>
    if period ≠ 0 ∧ period - 1 ≤ i then ((data.drop (i + 1 - period)).take period).max?
    else none

/-- `indicators.rs` `rolling_min`: trailing-window minimum, as
`rolling_max`. -/
def rolling_min (data : List ℚ) (period : Nat) : List F :=
  (List.range data.length).map fun i =>
    if period ≠ 0 ∧ period - 1 ≤ i then ((data.drop (i + 1 - period)).take period).min?
    else none

/-- `indicators.rs` `higher_high`: true at `i ≥ lookback` when the value
strictly exceeds the rolling max ending at `i-1`.  With `lookback == 0` and a
non-empty series the source evaluates `prev_max[i - 1]` at `i = 0`; the usize
index wraps and the access is out of bounds, a panic (`none`).  The inputs in
this codebase (`close`, `obv`) are finite, so the source's `is_nan` guard on
`data[i]` never short-circuits that access. -/
def higher_high (data : List ℚ) (lookback : Nat) : Option (List Bool) :=
  let n := data.length
  if lookback = 0 ∧ 0 < n then none
  else
    let prev_max := rolling_max data lookback
    some ((List.range n).map fun i =>
      if lookback ≤ i then
        match prev_max.getD (i - 1) none with
        | some m => decide (data.getD i 0 > m)
        | none => false
      else false)

/-- `indicators.rs` `lower_low`: mirror image of `higher_high`, with the same
panic on `lookback == 0` over a non-empty series. -/
def lower_low (data : List ℚ) (lookback : Nat) : Option (List Bool) :=
  let n := data.length
  if lookback = 0 ∧ 0 < n then none
  else
    let prev_min := rolling_min data lookback
    some ((List.range n).map fun i =>
      if lookback ≤ i then
        match prev_min.getD (i - 1) none with
        | some m => decide (data.getD i 0 < m)
        | none => false
      else false)

/-- `indicators.rs` `volume_ratio`: `volume[i] / sma(volume)[i]`, NaN when the
denominator is NaN or not positive. -/
def volume_ratio (volume : List ℚ) (period : Nat) : List F :=
  let avg := sma (volume.map some) period
  (volume.zip avg).map fun p =>
    match p.2 with
    | some a => if a > 0 then some (p.1 / a) else none
    | none => none

/-- `indicators.rs` `above`: elementwise `> threshold`, false on NaN. -/
def above (data : List F) (threshold : ℚ) : List Bool :=
  data.map fun v => fgt v (some threshold)

/-- `indicators.rs` `and`: elementwise AND of two masks (zip truncates, as in
the source). -/
def andMask (a b : List Bool) : List Bool :=
  (a.zip b).map fun p => p.1 && p.2

/-- `indicators.rs` `crossed_above`: true at `i ≥ 1` iff all four neighbouring
values are defined, `a[i] > b[i]` and `a[i-1] <= b[i-1]`. -/
def crossed_above (a b : List F) : List Bool :=
  (List.range a.length).map fun i =>
    if i = 0 then false
    else
      match a.getD i none, b.getD i none, a.getD (i - 1) none, b.getD (i - 1) none with
      | some ai, some bi, some ai', some bi' => decide (ai > bi) && decide (ai' ≤ bi')
      | _, _, _, _ => false

/-- `indicators.rs` `crossed_below`: true at `i ≥ 1` iff all four neighbouring
values are defined, `a[i] < b[i]` and `a[i-1] >= b[i-1]`. -/
def crossed_below (a b : List F) : List Bool :=
  (List.range a.length).map fun i =>
    if i = 0 then false
    else
      match a.getD i none, b.getD i none, a.getD (i - 1) none, b.getD (i - 1) none with
      | some ai, some bi, some ai', some bi' => decide (ai < bi) && decide (ai' ≥ bi')
      | _, _, _, _ => false

/-- `indicators.rs` `bollinger`: middle = SMA; upper/lower = middle ± the
`num_std`-scaled population standard deviation over the trailing window.  The
source loop over `(period-1)..n` writes only where the SMA is defined; the
unreachable NaN-mean fallback is kept as `none`. -/
def bollinger (data : List ℚ) (period : Nat) (num_std : ℚ) :
    List F × List F × List F :=
  let n := data.length
  let middle := sma (data.map some) period
  let halfWidth : Nat → F := fun i =>
    if period ≠ 0 ∧ period - 1 ≤ i then
      match middle.getD i none with
      | some mean =>
          some (num_std * sqrtQ
            ((((data.drop (i + 1 - period)).take period).map fun x => (x - mean) ^ 2).sum /
              (period : ℚ)))
      | none => none
    else none
  (middle,
    (List.range n).map fun i => fadd (middle.getD i none) (halfWidth i),
    (List.range n).map fun i => fsub (middle.getD i none) (halfWidth i))

/-- `scanner.rs` `ScanMatch`: one match record.  The source's always-empty
per-indicator map (a documented unused extension point) is omitted. -/
structure ScanMatch where
  ticker : String
  date : String
  close : ℚ
  volume : ℚ
  open_ : ℚ
  high : ℚ
  low : ℚ
deriving DecidableEq

/-- `scanner.rs` `ScanQuery`. -/
structure ScanQuery where
  scan_type : String
  params : Params
  date_from : Option String
  date_to : Option String

/-- `scanner.rs` `ScanResult` (the wall-clock `scan_time_ms` field is not
modelled). -/
structure ScanResult where
  «matches» : List ScanMatch
  total_tickers_scanned : Nat
  tickers_with_matches : Nat
deriving DecidableEq

/-- Outcome of the pattern dispatch in `scan_single_ticker`: a computed mask,
a panic inside an evaluator, or an unknown pattern name (the `return None`
arm). -/
inductive MaskRes where
  | mask : List Bool → MaskRes
  | panicked : MaskRes
  | unknown : MaskRes
deriving DecidableEq

/-- Lift a panic-able evaluator result into `MaskRes`. -/
def optMask : Option (List Bool) → MaskRes
  | some m => .mask m
  | none => .panicked

/-- `scanner.rs` `scan_golden_cross`: 50-SMA crossing above 200-SMA. -/
def scan_golden_cross (data : TickerData) : List Bool :=
  crossed_above (sma (data.close.map some) 50) (sma (data.close.map some) 200)

/-- `scanner.rs` `scan_death_cross`: 50-SMA crossing below 200-SMA. -/
def scan_death_cross (data : TickerData) : List Bool :=
  crossed_below (sma (data.close.map some) 50) (sma (data.close.map some) 200)

/-- `scanner.rs` `scan_ema_cross`. -/
def scan_ema_cross (data : TickerData) (params : Params) : List Bool :=
  let fast := getU64 params ("fast") 12
  let slow := getU64 params ("slow") 26
  let direction := getStr params ("direction") ("up")
  let ema_fast := ema (data.close.map some) fast
  let ema_slow := ema (data.close.map some) slow
  if direction = "up" then crossed_above ema_fast ema_slow
  else crossed_below ema_fast ema_slow

/-- `scanner.rs` `scan_rsi_oversold`: RSI crossing below the threshold. -/
def scan_rsi_oversold (data : TickerData) (params : Params) : List Bool :=
  let period := getU64 params ("period") 14
  let threshold := getF64 params ("threshold") 30
  let rsi_vals := rsi (data.close.map some) period
  crossed_below rsi_vals (List.replicate rsi_vals.length (some threshold))

/-- `scanner.rs` `scan_rsi_overbought`: RSI crossing above the threshold. -/
def scan_rsi_overbought (data : TickerData) (params : Params) : List Bool :=
  let period := getU64 params ("period") 14
  let threshold := getF64 params ("threshold") 70
  let rsi_vals := rsi (data.close.map some) period
  crossed_above rsi_vals (List.replicate rsi_vals.length (some threshold))

/-- `scanner.rs` `scan_obv_breakout`: OBV making a higher high over the
lookback; panics (via `higher_high`) when the supplied lookback is `0` and the
series is non-empty. -/
def scan_obv_breakout (data : TickerData) (params : Params) : Option (List Bool) :=
  let lookback := getU64 params ("lookback") 20
  higher_high (obv data.close data.volume) lookback

/-- `scanner.rs` `scan_volume_spike`. -/
def scan_volume_spike (data : TickerData) (params : Params) : List Bool :=
  let period := getU64 params ("period") 20
  let multiplier := getF64 params ("multiplier") 2
  above (volume_ratio data.volume period) multiplier

/-- `scanner.rs` `scan_bollinger_squeeze`: band width as a percentage of the
middle below `squeeze_pct`. -/
def scan_bollinger_squeeze (data : TickerData) (params : Params) : List Bool :=
  let period := getU64 params ("period") 20
  let std_mult := getF64 params ("std") 2
  let squeeze_pct := getF64 params ("squeeze_pct") 5
  let bands := bollinger data.close period std_mult
  let middle := bands.1
  let upper := bands.2.1
  let lower := bands.2.2
  (List.range middle.length).map fun i =>
    match middle.getD i none, upper.getD i none, lower.getD i none with
    | some m, some u, some l => if m = 0 then false else decide ((u - l) / m * 100 < squeeze_pct)
    | _, _, _ => false

/-- `scanner.rs` `scan_macd_cross_up`. -/
def scan_macd_cross_up (data : TickerData) (params : Params) : List Bool :=
  let fast := getU64 params ("fast") 12
  let slow := getU64 params ("slow") 26
  let signal := getU64 params ("signal") 9
  crossed_above (macd (data.close.map some) fast slow)
    (macd_signal (data.close.map some) fast slow signal)

/-- `scanner.rs` `scan_macd_cross_down`. -/
def scan_macd_cross_down (data : TickerData) (params : Params) : List Bool :=
  let fast := getU64 params ("fast") 12
  let slow := getU64 params ("slow") 26
  let signal := getU64 params ("signal") 9
  crossed_below (macd (data.close.map some) fast slow)
    (macd_signal (data.close.map some) fast slow signal)

/-- `scanner.rs` `scan_price_breakout`: close making a new `lookback`-day
high; inherits `higher_high`'s panic on a supplied lookback of `0`. -/
def scan_price_breakout (data : TickerData) (params : Params) : Option (List Bool) :=
  let lookback := getU64 params ("lookback") 252
  higher_high data.close lookback

/-- `scanner.rs` `scan_bullish_divergence`: price lower low AND OBV higher
high. -/
def scan_bullish_divergence (data : TickerData) (params : Params) : Option (List Bool) := do
  let lookback := getU64 params ("lookback") 20
  let obv_vals := obv data.close data.volume
  let price_ll ← lower_low data.close lookback
  let obv_hh ← higher_high obv_vals lookback
  return andMask price_ll obv_hh

/-- `scanner.rs` `scan_bearish_divergence`: price higher high AND OBV lower
low. -/
def scan_bearish_divergence (data : TickerData) (params : Params) : Option (List Bool) := do
  let lookback := getU64 params ("lookback") 20
  let obv_vals := obv data.close data.volume
  let price_hh ← higher_high data.close lookback
  let obv_ll ← lower_low obv_vals lookback
  return andMask price_hh obv_ll

/-- `scanner.rs` `scan_consolidation_breakout`: a tight trailing range broken
with a confirming volume spike.  For `period == 0` the source folds over an
empty slice, producing infinite sentinels whose range test is `NaN < pct`,
always false; that case is the explicit `period ≠ 0` conjunct here. -/
def scan_consolidation_breakout (data : TickerData) (params : Params) : List Bool :=
  let period := getU64 params ("period") 30
  let range_pct := getF64 params ("range_pct") 5
  let vol_mult := getF64 params ("volume_multiplier") (3 / 2)
  let n := data.close.length
  let vol_ratio := volume_ratio data.volume 20
  (List.range n).map fun i =>
    if period ≤ i ∧ period ≠ 0 then
      let slice := (data.close.drop (i - period)).take period
      let max_price := (slice.max?).getD 0
      let min_price := (slice.min?).getD 0
      if min_price = 0 then false
      else
        decide ((max_price - min_price) / min_price * 100 < range_pct) &&
        decide (data.close.getD i 0 > max_price) &&
        fgt (vol_ratio.getD i none) (some vol_mult)
    else false

/-- `scanner.rs` `scan_bullish_engulfing_oversold`: a bullish engulfing candle
whose RSI dipped below the threshold within the lookback window. -/
def scan_bullish_engulfing_oversold (data : TickerData) (params : Params) : List Bool :=
  let rsi_period := getU64 params ("rsi_period") 14
  let rsi_threshold := getF64 params ("rsi_threshold") 30
  let lookback := getU64 params ("lookback") 5
  let n := data.close.length
  let rsi_vals := rsi (data.close.map some) rsi_period
  (List.range n).map fun i =>
    if i = 0 then false
    else
      let prev_red := decide (data.close.getD (i - 1) 0 < data.open_.getD (i - 1) 0)
      let curr_green := decide (data.close.getD i 0 > data.open_.getD i 0)
      let engulfs := decide (data.open_.getD i 0 ≤ data.close.getD (i - 1) 0) &&
        decide (data.close.getD i 0 ≥ data.open_.getD (i - 1) 0)
      if prev_red && curr_green && engulfs then
        let start := if i > lookback then i - lookback else 0
        (List.range' start (i - start)).any fun j =>
          match rsi_vals.getD j none with
          | some r => decide (r < rsi_threshold)
          | none => false
      else false

/-- `scanner.rs` `MonthlyBar`. -/
structure MonthlyBar where
  start_idx : Nat
  end_idx : Nat
  open_ : ℚ
  close : ℚ
  high : ℚ
  low : ℚ
  volume : ℚ
deriving DecidableEq

instance : Inhabited MonthlyBar :=
  ⟨{ start_idx := 0, end_idx := 0, open_ := 0, close := 0, high := 0, low := 0, volume := 0 }⟩

/-- `scanner.rs` `month_key`: `date.get(0..7).unwrap_or(date)` — the first
seven characters when the string has at least seven (ASCII dates in scope,
so bytes = chars), else the whole string. -/
def month_key (date : String) : String :=
  if 7 ≤ date.length then date.take 7 else date

/-- `scanner.rs` `build_monthly_bars` loop: `i` is the next index to examine,
the open bar so far covers `[start_idx, i-1]` with accumulators
`(o, h, l, v)`; a month-key change closes the bar. -/
def buildBarsGo (data : TickerData) (n : Nat) (i : Nat) (current_month : String)
    (start_idx : Nat) (o h l v : ℚ) : List MonthlyBar :=
  if _hn : i < n then
    if month_key (data.date.getD i "") ≠ current_month then
      { start_idx := start_idx, end_idx := i - 1, open_ := o,
        close := data.close.getD (i - 1) 0, high := h, low := l, volume := v } ::
        buildBarsGo data n (i + 1) (month_key (data.date.getD i "")) i (data.open_.getD i 0)
          (data.high.getD i 0) (data.low.getD i 0) (data.volume.getD i 0)
    else
      buildBarsGo data n (i + 1) current_month start_idx o (max h (data.high.getD i 0))
        (min l (data.low.getD i 0)) (v + data.volume.getD i 0)
  else
    [{ start_idx := start_idx, end_idx := n - 1, open_ := o,
        close := data.close.getD (n - 1) 0, high := h, low := l, volume := v }]
termination_by n - i

/-- `scanner.rs` `build_monthly_bars`: groups the daily series into contiguous
monthly bars keyed by the 7-character year-month prefix of the date. -/
def build_monthly_bars (data : TickerData) : List MonthlyBar :=
  let n := data.close.length
  if n = 0 then []
  else
    buildBarsGo data n 1 (month_key (data.date.getD 0 "")) 0 (data.open_.getD 0 0)
      (data.high.getD 0 0) (data.low.getD 0 0) (data.volume.getD 0 0)

/-- `scanner.rs` `scan_monthly_gap_drop`: whether the consecutive bar pair
`(prev, curr)` fires (gap down of at least `gap_pct` percent, candle filter
satisfied). -/
def gapFires (gap_pct : ℚ) (candle : String) (prev curr : MonthlyBar) : Bool :=
  if prev.close = 0 then false
  else if (curr.open_ - prev.close) / prev.close * 100 > -gap_pct then false
  else
    if candle = "bullish" then decide (curr.close > curr.open_)
    else if candle = "bearish" then decide (curr.close < curr.open_)
    else true

/-- One iteration of the `scan_monthly_gap_drop` loop over consecutive bar
pairs `(i-1, i)`: on a qualifying gap it sets the mask at the month's first
(default) or last trading index; the source's `idx < result.len()` guard is
`List.set`'s out-of-bounds no-op. -/
def gapStep (data : TickerData) (params : Params) (result : List Bool) (i : Nat) : List Bool :=
  if gapFires |getF64 params ("gap_pct") 5| ((getStr params ("candle") ("any")).toLower)
      ((build_monthly_bars data).getD (i - 1) default)
      ((build_monthly_bars data).getD i default) then
    result.set
      (if (getStr params ("event_on") ("start")).toLower = "end" ∨
          (getStr params ("event_on") ("start")).toLower = "close" then
        ((build_monthly_bars data).getD i default).end_idx
      else ((build_monthly_bars data).getD i default).start_idx) true
  else result

/-- `scanner.rs` `scan_monthly_gap_drop`: monthly gap-down pattern (open
gapping below the prior month's close by at least `gap_pct` percent,
optionally filtered by the new month's candle colour); all-false when fewer
than two monthly bars exist. -/
def scan_monthly_gap_drop (data : TickerData) (params : Params) : List Bool :=
  if (build_monthly_bars data).length < 2 then List.replicate data.close.length false
  else
    (List.range' 1 ((build_monthly_bars data).length - 1)).foldl (gapStep data params)
      (List.replicate data.close.length false)

/-- `scanner.rs` `scan_custom`: the caller-supplied condition list
(`"conditions"` as an array, keeping only its string elements; empty when the
key is absent or not an array). -/
def getConditions (params : Params) : List String :=
  (((params.lookup ("conditions")).bind asArr).map fun arr => arr.filterMap asStr).getD []

/-- `scanner.rs` `scan_custom` match: the mask for one recognized condition
name (`none` = unrecognized, the `continue` arm — the dynamic registry is not
consulted); the inner `Option` is a panic inside the sub-evaluator. -/
def condEval (data : TickerData) (params : Params) : String → Option (Option (List Bool))
  | "golden_cross" => some (some (scan_golden_cross data))
  | "death_cross" => some (some (scan_death_cross data))
  | "rsi_oversold" => some (some (scan_rsi_oversold data params))
  | "rsi_overbought" => some (some (scan_rsi_overbought data params))
  | "volume_spike" => some (some (scan_volume_spike data params))
  | "price_breakout" => some (scan_price_breakout data params)
  | _ => none

/-- `scanner.rs` `scan_custom` loop: folds the recognized conditions' masks
with AND; `acc` is the running `Option<Vec<bool>>`; the outer `Option` is a
panic. -/
def customGo (data : TickerData) (params : Params) :
    List String → Option (List Bool) → Option (Option (List Bool))
  | [], acc => some acc
  | cond :: rest, acc =>
    match condEval data params cond with
    | none => customGo data params rest acc
    | some res =>
      match res with
      | none => none
      | some m =>
        customGo data params rest
          (some (match acc with
            | none => m
            | some r => andMask r m))

/-- `scanner.rs` `scan_custom`: ANDs together the masks of the recognized
condition names; an empty condition list, or one whose names are all
unrecognized, yields an all-false mask of the series length. -/
def scan_custom (data : TickerData) (params : Params) : Option (List Bool) :=
  if (getConditions params).isEmpty then some (List.replicate data.close.length false)
  else
    match customGo data params (getConditions params) none with
    | none => none
    | some acc => some (acc.getD (List.replicate data.close.length false))

/-- `generated.rs` `get_scan`: the dynamic registry of this revision is
empty — every id misses. -/
def get_scan (_id : String) : Option (TickerData → Params → List Bool) := none

/-- `scanner.rs` `scan_single_ticker` dispatch on `query.scan_type` (the
source `match`, as the comparison chain it compiles to), falling through to
the dynamic registry. -/
def dispatch (data : TickerData) (scan_type : String) (params : Params) : MaskRes :=
  if scan_type = "golden_cross" then .mask (scan_golden_cross data)
  else if scan_type = "death_cross" then .mask (scan_death_cross data)
  else if scan_type = "ema_cross" then .mask (scan_ema_cross data params)
  else if scan_type = "rsi_oversold" then .mask (scan_rsi_oversold data params)
  else if scan_type = "rsi_overbought" then .mask (scan_rsi_overbought data params)
  else if scan_type = "obv_breakout" then optMask (scan_obv_breakout data params)
  else if scan_type = "volume_spike" then .mask (scan_volume_spike data params)
  else if scan_type = "bollinger_squeeze" then .mask (scan_bollinger_squeeze data params)
  else if scan_type = "macd_cross_up" then .mask (scan_macd_cross_up data params)
  else if scan_type = "macd_cross_down" then .mask (scan_macd_cross_down data params)
  else if scan_type = "price_breakout" then optMask (scan_price_breakout data params)
  else if scan_type = "bullish_divergence" then optMask (scan_bullish_divergence data params)
  else if scan_type = "bearish_divergence" then optMask (scan_bearish_divergence data params)
  else if scan_type = "consolidation_breakout" then .mask (scan_consolidation_breakout data params)
  else if scan_type = "bullish_engulfing_oversold" then
    .mask (scan_bullish_engulfing_oversold data params)
  else if scan_type = "monthly_gap_drop" then .mask (scan_monthly_gap_drop data params)
  else if scan_type = "custom" then optMask (scan_custom data params)
  else
    match get_scan scan_type with
    | some f => .mask (f data params)
    | none => .unknown

/-- `scanner.rs` `scan_single_ticker` date filter: a match at `date` is kept
iff neither `date < from` nor `date > to` (each bound only when supplied). -/
def keepDate (date_from date_to : Option String) (date : String) : Bool :=
  (match date_from with
    | some f => !decide (date < f)
    | none => true) &&
  (match date_to with
    | some t => !decide (t < date)
    | none => true)

/-- `scanner.rs` `scan_single_ticker` match-collection loop: one record per
`true` mask index whose date passes the range filter. -/
def buildMatches (ticker : String) (data : TickerData) (date_from date_to : Option String)
    (mask : List Bool) : List ScanMatch :=
  (List.range mask.length).filterMap fun i =>
    if mask.getD i false then
      let date := data.date.getD i ""
      if keepDate date_from date_to date then
        some { ticker := ticker, date := date, close := data.close.getD i 0,
               volume := data.volume.getD i 0, open_ := data.open_.getD i 0,
               high := data.high.getD i 0, low := data.low.getD i 0 }
      else none
    else none

/-- `scanner.rs` `scan_single_ticker`: `none` (outer) models a panic inside
the evaluator; the inner `none` is the source's `Option::None` (unknown
pattern, or a ticker with no qualifying matches). -/
def scan_single_ticker (ticker : String) (data : TickerData) (query : ScanQuery) :
    Option (Option (List ScanMatch)) :=
  match dispatch data query.scan_type query.params with
  | .unknown => some none
  | .panicked => none
  | .mask m =>
    let ms := buildMatches ticker data query.date_from query.date_to m
    some (if ms.isEmpty then none else some ms)

/-- `scanner.rs` `run_scan`: per-ticker evaluation over the universe (the
parallel fan-out presented in iteration order; the order is incidental, see
the idempotence theorem), dropping tickers without matches, concatenating the
rest.  `none` models a panic aborting the scan; `scan_time_ms` is not
modelled. -/
def run_scan (data : List (String × TickerData)) (query : ScanQuery) : Option ScanResult := do
  let results ← data.mapM fun td => scan_single_ticker td.1 td.2 query
  return { «matches» := (results.filterMap id).flatten,
           total_tickers_scanned := data.length,
           tickers_with_matches := (results.filterMap id).length }

/-- The arithmetic mean of the window `s[i-p+1..=i]` (the spec's wording for
the SMA contract). -/
def windowMean (data : List ℚ) (p i : Nat) : ℚ :=
  ((data.drop (i + 1 - p)).take p).sum / (p : ℚ)

/-- The built-in pattern names of the `scan_single_ticker` dispatch. -/
def builtin_scan_types : List String :=
  ["golden_cross", "death_cross", "ema_cross", "rsi_oversold", "rsi_overbought",
   "obv_breakout", "volume_spike", "bollinger_squeeze", "macd_cross_up", "macd_cross_down",
   "price_breakout", "bullish_divergence", "bearish_divergence", "consolidation_breakout",
   "bullish_engulfing_oversold", "monthly_gap_drop", "custom"]

/-- The six condition names the composite "custom" pattern recognizes. -/
def custom_condition_names : List String :=
  ["golden_cross", "death_cross", "rsi_oversold", "rsi_overbought", "volume_spike",
   "price_breakout"]

/-- A minimal one-bar ticker for the concrete check theorems. -/
def tinyData : TickerData :=
  { date := ["2024-01-02"], open_ := [1], high := [1], low := [1], close := [1],
    volume := [1] }

/-- A second one-bar ticker for the order-permutation check. -/
def tinyData2 : TickerData :=
  { date := ["2024-01-02"], open_ := [2], high := [2], low := [2], close := [2],
    volume := [2] }

/-- Two months of bars: January closes at 100, February opens at 90 (a −10%
gap) and closes below its open — the spec's monthly gap-drop scenario. -/
def twoMonthData : TickerData :=
  { date := ["2024-01-10", "2024-01-11", "2024-02-01", "2024-02-02"],
    open_ := [100, 101, 90, 89], high := [102, 102, 91, 90], low := [99, 100, 85, 84],
    close := [101, 100, 88, 86], volume := [10, 10, 10, 10] }

/-- The bars cover `[s, e]` contiguously: the first starts at `s`, each bar
is non-empty (`start_idx ≤ end_idx`), each subsequent bar starts right after
the previous one ends, and the last ends at `e`. -/
def ChainedFrom (s e : Nat) : List MonthlyBar → Prop
  | [] => False
  | [b] => b.start_idx = s ∧ b.end_idx = e ∧ b.start_idx ≤ b.end_idx
  | b :: b2 :: rest => b.start_idx = s ∧ b.start_idx ≤ b.end_idx ∧
      ChainedFrom (b.end_idx + 1) e (b2 :: rest)

instance instDecidableChainedFrom :
    ∀ (s e : Nat) (l : List MonthlyBar), Decidable (ChainedFrom s e l)
  | _, _, [] => by
    unfold ChainedFrom
    infer_instance
  | _, _, [_] => by
    unfold ChainedFrom
    infer_instance
  | s, e, b :: b2 :: rest => by
    unfold ChainedFrom
    have := instDecidableChainedFrom (b.end_idx + 1) e (b2 :: rest)
    infer_instance

/-- Every date in a bar's index range shares the month key of the bar's first
date. -/
def BarMonthsOk (data : TickerData) (b : MonthlyBar) : Prop :=
  ∀ j, b.start_idx ≤ j → j ≤ b.end_idx →
    month_key (data.date.getD j "") = month_key (data.date.getD b.start_idx "")

/-! ## Sanity checks of the embedding on the spec's scenarios -/

example : sma ((([1, 2, 3, 4, 5] : List ℚ)).map some) 3 =
    [none, none, some 2, some 3, some 4] := by with_unfolding_all decide

example : sma ((([1, 2, 3] : List ℚ)).map some) 0 = [none, none, none] := by
  with_unfolding_all decide

example : sma ((([1, 2, 3] : List ℚ)).map some) 4 = [none, none, none] := by
  with_unfolding_all decide

example : crossed_above (([1, 2, 3, 4] : List ℚ).map some) (([2, 2, 2, 2] : List ℚ).map some) =
    [false, false, true, false] := by with_unfolding_all decide

example : obv ([2, 3, 1, 1] : List ℚ) ([5, 6, 7, 8] : List ℚ) = [0, 6, -1, -1] := by
  with_unfolding_all decide

example : rsi (([1, 1, 1, 1] : List ℚ).map some) 2 = [none, none, some 100, some 100] := by
  with_unfolding_all decide

example : (build_monthly_bars twoMonthData).map (fun b => (b.start_idx, b.end_idx)) =
    [(0, 1), (2, 3)] := by with_unfolding_all decide

/-! ## Generic indexing lemmas -/

lemma getD_map_range {α : Type} (f : Nat → α) (n i : Nat) (d : α) (h : i < n) :
    ((List.range n).map f).getD i d = f i := by
  rw [List.getD_eq_getElem ((List.range n).map f) d (by simpa using h)]
  simp

lemma getD_map_range_ge {α : Type} (f : Nat → α) (n i : Nat) (d : α) (h : n ≤ i) :
    ((List.range n).map f).getD i d = d :=
  List.getD_eq_default _ _ (by simpa using h)

/-! ## C5: crossing detectors -/

lemma crossed_above_getD_true_iff (a b : List F) (i : Nat) :
    (crossed_above a b).getD i false = true ↔
      ∃ ai bi ai' bi', i ≠ 0 ∧ i < a.length ∧
        a.getD i none = some ai ∧ b.getD i none = some bi ∧
        a.getD (i - 1) none = some ai' ∧ b.getD (i - 1) none = some bi' ∧
        bi < ai ∧ ai' ≤ bi' := by
  constructor
  · intro h
    by_cases hi : i < a.length
    · simp only [crossed_above] at h
      rw [getD_map_range _ _ _ _ hi] at h
      split at h
      · simp at h
      · rename_i hne
        split at h
        · rename_i ai bi ai' bi' ha hb ha' hb'
          rcases Bool.and_eq_true .. |>.mp h with ⟨hgt, hle⟩
          exact ⟨ai, bi, ai', bi', hne, hi, ha, hb, ha', hb',
            by simpa using hgt, by simpa using hle⟩
        · simp at h
    · simp only [crossed_above] at h
      rw [getD_map_range_ge _ _ _ _ (Nat.le_of_not_lt hi)] at h
      simp at h
  · rintro ⟨ai, bi, ai', bi', hne, hi, ha, hb, ha', hb', h1, h2⟩
    simp only [crossed_above]
    rw [getD_map_range _ _ _ _ hi, if_neg hne, ha, hb, ha', hb']
    simp [h1, h2]

lemma crossed_below_getD_true_iff (a b : List F) (i : Nat) :
    (crossed_below a b).getD i false = true ↔
      ∃ ai bi ai' bi', i ≠ 0 ∧ i < a.length ∧
        a.getD i none = some ai ∧ b.getD i none = some bi ∧
        a.getD (i - 1) none = some ai' ∧ b.getD (i - 1) none = some bi' ∧
        ai < bi ∧ bi' ≤ ai' := by
  constructor
  · intro h
    by_cases hi : i < a.length
    · simp only [crossed_below] at h
      rw [getD_map_range _ _ _ _ hi] at h
      split at h
      · simp at h
      · rename_i hne
        split at h
        · rename_i ai bi ai' bi' ha hb ha' hb'
          rcases Bool.and_eq_true .. |>.mp h with ⟨hlt, hge⟩
          exact ⟨ai, bi, ai', bi', hne, hi, ha, hb, ha', hb',
            by simpa using hlt, by simpa using hge⟩
        · simp at h
    · simp only [crossed_below] at h
      rw [getD_map_range_ge _ _ _ _ (Nat.le_of_not_lt hi)] at h
      simp at h
  · rintro ⟨ai, bi, ai', bi', hne, hi, ha, hb, ha', hb', h1, h2⟩
    simp only [crossed_below]
    rw [getD_map_range _ _ _ _ hi, if_neg hne, ha, hb, ha', hb']
    simp [h1, h2]

/-- C5: for every pair of equal-length series `a`, `b` and every index `i`,
`crossed_above(a,b)[i]` and `crossed_below(a,b)[i]` are never both true; both
are false at index 0; and both are false whenever any of `a[i]`, `b[i]`,
`a[i-1]`, `b[i-1]` is NaN. -/
theorem C5_crossed_mutually_exclusive (a b : List F) (_hlen : a.length = b.length) :
    (∀ i, ¬((crossed_above a b).getD i false = true ∧
        (crossed_below a b).getD i false = true)) ∧
    ((crossed_above a b).getD 0 false = false ∧ (crossed_below a b).getD 0 false = false) ∧
    (∀ i, (a.getD i none = none ∨ b.getD i none = none ∨
        a.getD (i - 1) none = none ∨ b.getD (i - 1) none = none) →
      (crossed_above a b).getD i false = false ∧ (crossed_below a b).getD i false = false) := by
  refine ⟨?_, ?_, ?_⟩
  · rintro i ⟨h1, h2⟩
    rcases (crossed_above_getD_true_iff a b i).mp h1 with
      ⟨ai, bi, _, _, _, _, ha, hb, _, _, hgt, _⟩
    rcases (crossed_below_getD_true_iff a b i).mp h2 with
      ⟨ai2, bi2, _, _, _, _, ha2, hb2, _, _, hlt, _⟩
    rw [ha] at ha2
    rw [hb] at hb2
    injection ha2 with ha2
    injection hb2 with hb2
    subst ha2
    subst hb2
    exact absurd hgt (not_lt.mpr (le_of_lt hlt))
  · constructor
    · rw [Bool.eq_false_iff]
      intro h
      rcases (crossed_above_getD_true_iff a b 0).mp h with ⟨_, _, _, _, hne, _⟩
      exact hne rfl
    · rw [Bool.eq_false_iff]
      intro h
      rcases (crossed_below_getD_true_iff a b 0).mp h with ⟨_, _, _, _, hne, _⟩
      exact hne rfl
  · intro i hnan
    constructor
    · rw [Bool.eq_false_iff]
      intro h
      rcases (crossed_above_getD_true_iff a b i).mp h with
        ⟨ai, bi, ai', bi', _, _, ha, hb, ha', hb', _, _⟩
      rcases hnan with hn | hn | hn | hn <;> simp_all
    · rw [Bool.eq_false_iff]
      intro h
      rcases (crossed_below_getD_true_iff a b i).mp h with
        ⟨ai, bi, ai', bi', _, _, ha, hb, ha', hb', _, _⟩
      rcases hnan with hn | hn | hn | hn <;> simp_all

/-- C5 witness: the theorem applied at a concrete pair of series. -/
theorem C5_crossed_mutually_exclusive_witness :
    ¬((crossed_above [some 1, none] [some 0, some 0]).getD 1 false = true ∧
        (crossed_below [some 1, none] [some 0, some 0]).getD 1 false = true) :=
  (C5_crossed_mutually_exclusive [some 1, none] [some 0, some 0] (by decide)).1 1

/-! ## C1: simple moving average -/

lemma getD_map_some (data : List ℚ) (i : Nat) (h : i < data.length) :
    (data.map some).getD i none = some (data.getD i 0) := by
  rw [List.getD_eq_getElem _ _ (by simpa using h), List.getD_eq_getElem _ _ h]
  simp

lemma foldl_fadd_map_some (l : List ℚ) (a : ℚ) :
    (l.map some).foldl fadd (some a) = some (a + l.sum) := by
  induction l generalizing a with
  | nil => simp
  | cons x xs ih => simp [fadd, ih, add_assoc]

lemma fsum_map_some (l : List ℚ) : fsum (l.map some) = some l.sum := by
  simp [fsum, foldl_fadd_map_some]

lemma smaGo_length (data : List F) (period i : Nat) (s : F) :
    (smaGo data period i s).length = data.length - i := by
  unfold smaGo
  split
  · rw [List.length_cons, smaGo_length]
    omega
  · simp only [List.length_nil]
    omega
termination_by data.length - i

/-- Sliding the window one step: adding the new element and removing the
oldest turns the sum over `[i-p, i-1]` into the sum over `[i-p+1, i]`. -/
lemma window_sum_step (data : List ℚ) (p i : Nat) (hp : 0 < p) (hpi : p ≤ i)
    (hi : i < data.length) :
    ((data.drop (i - p)).take p).sum + data.getD i 0 - data.getD (i - p) 0 =
      ((data.drop (i + 1 - p)).take p).sum := by
  obtain ⟨q, rfl⟩ : ∃ q, p = q + 1 := ⟨p - 1, by omega⟩
  have hip : i - (q + 1) < data.length := by omega
  have hcons : data.drop (i - (q + 1)) =
      data.getD (i - (q + 1)) 0 :: data.drop (i - (q + 1) + 1) := by
    rw [List.getD_eq_getElem _ _ hip]
    exact List.drop_eq_getElem_cons hip
  have hidx : i + 1 - (q + 1) = i - (q + 1) + 1 := by omega
  have hlen : q < (data.drop (i - (q + 1) + 1)).length := by
    rw [List.length_drop]; omega
  have hlast : (data.drop (i - (q + 1) + 1))[q] = data.getD i 0 := by
    rw [List.getElem_drop, List.getD_eq_getElem _ _ hi]
    congr 1
    omega
  rw [hcons, List.take_succ_cons, List.sum_cons, hidx,
    List.sum_take_succ _ _ hlen, hlast]
  ring

lemma smaNext_map_some (data : List ℚ) (p i : Nat) (s : ℚ) (hpi : p ≤ i)
    (hi : i < data.length) :
    smaNext (data.map some) p i (some s) =
      some (s + (data.getD i 0 - data.getD (i - p) 0)) := by
  unfold smaNext
  rw [getD_map_some data i hi, getD_map_some data (i - p) (by omega)]
  rfl

/-- The rolling-sum loop emits exactly the window means: if `s` is the window
sum ending at `i-1`, entry `j` of `smaGo` (which sits at series index `i+j`)
is the mean of the window ending there. -/
lemma smaGo_getD (data : List ℚ) (p : Nat) (hp : 0 < p) :
    ∀ i s j, p ≤ i → s = ((data.drop (i - p)).take p).sum → i + j < data.length →
      (smaGo (data.map some) p i (some s)).getD j none = some (windowMean data p (i + j)) := by
  intro i s j
  induction j generalizing i s with
  | zero =>
    intro hpi hs hj
    have hi : i < data.length := by omega
    have harith : s + (data.getD i 0 - data.getD (i - p) 0) =
        ((data.drop (i + 1 - p)).take p).sum := by
      rw [hs, ← window_sum_step data p i hp hpi hi]
      ring
    unfold smaGo
    rw [dif_pos (by simpa using hi)]
    rw [List.getD_cons_zero, smaNext_map_some data p i s hpi hi, harith]
    simp only [fdiv]
    rw [if_neg (Nat.cast_ne_zero.mpr hp.ne')]
    simp [windowMean]
  | succ j ih =>
    intro hpi hs hj
    have hi : i < data.length := by omega
    have harith : s + (data.getD i 0 - data.getD (i - p) 0) =
        ((data.drop (i + 1 - p)).take p).sum := by
      rw [hs, ← window_sum_step data p i hp hpi hi]
      ring
    unfold smaGo
    rw [dif_pos (by simpa using hi)]
    rw [List.getD_cons_succ, smaNext_map_some data p i s hpi hi, harith]
    rw [show i + (j + 1) = (i + 1) + j from by omega]
    exact ih (i + 1) _ (by omega) rfl (by omega)

/-- C1: for `0 < p ≤ n`, `sma(s,p)` has length `n`, is NaN below index `p-1`,
and at every index `i ≥ p-1` equals the arithmetic mean of `s[i-p+1..=i]`;
when `p = 0` or `n < p`, every entry is NaN. -/
theorem C1_sma_spec (data : List ℚ) (p : Nat) :
    (0 < p → p ≤ data.length →
      (sma (data.map some) p).length = data.length ∧
      (∀ i, i < p - 1 → (sma (data.map some) p).getD i (some 0) = none) ∧
      (∀ i, p - 1 ≤ i → i < data.length →
        (sma (data.map some) p).getD i none = some (windowMean data p i))) ∧
    ((p = 0 ∨ data.length < p) →
      ∀ i, i < data.length → (sma (data.map some) p).getD i (some 0) = none) := by
  constructor
  · intro hp hpn
    have hguard : ¬(data.length < p ∨ p = 0) := by omega
    have hsum0 : fsum ((data.map some).take p) = some ((data.take p).sum) := by
      rw [← List.map_take, fsum_map_some]
    refine ⟨?_, ?_, ?_⟩
    · simp only [sma, if_neg hguard, List.length_append, List.length_replicate,
        List.length_cons, smaGo_length, List.length_map]
      omega
    · intro i hi
      simp only [sma, List.length_map, if_neg hguard]
      rw [List.getD_append _ _ _ _ (by simpa using hi)]
      rw [List.getD_eq_getElem _ _ (by simpa using hi)]
      simp
    · intro i hi1 hi2
      simp only [sma, List.length_map, if_neg hguard]
      rcases Nat.eq_or_lt_of_le hi1 with heq | hlt
      · rw [List.getD_append_right _ _ _ _ (by simp [← heq])]
        rw [List.length_replicate, ← heq, Nat.sub_self, List.getD_cons_zero, hsum0]
        simp only [fdiv]
        rw [if_neg (Nat.cast_ne_zero.mpr hp.ne')]
        simp only [windowMean]
        rw [show p - 1 + 1 - p = 0 from by omega, List.drop_zero]
      · rw [List.getD_append_right _ _ _ _ (by simp; omega)]
        rw [List.length_replicate]
        rw [show i - (p - 1) = (i - p) + 1 from by omega, List.getD_cons_succ, hsum0]
        have := smaGo_getD data p hp p ((data.take p).sum) (i - p) le_rfl
          (by rw [Nat.sub_self, List.drop_zero]) (by omega)
        rw [show p + (i - p) = i from by omega] at this
        exact this
  · intro hdeg i hi
    have hguard : data.length < p ∨ p = 0 := by
      rcases hdeg with h | h
      · right
        exact h
      · left
        exact h
    simp only [sma, List.length_map, if_pos hguard]
    rw [List.getD_eq_getElem _ _ (by simpa using hi)]
    simp

/-- C1 witness: the theorem applied to the spec's scenario series
`[1,2,3,4,5]` with period 3. -/
theorem C1_sma_spec_witness :
    (sma (([1, 2, 3, 4, 5] : List ℚ).map some) 3).getD 4 none =
      some (windowMean ([1, 2, 3, 4, 5] : List ℚ) 3 4) :=
  ((C1_sma_spec ([1, 2, 3, 4, 5] : List ℚ) 3).1 (by decide) (by decide)).2.2 4
    (by decide) (by decide)

/-! ## C6: RSI range and constant series -/

lemma gainsOf_length (data : List F) : (gainsOf data).length = data.length := by
  simp [gainsOf]

lemma lossesOf_length (data : List F) : (lossesOf data).length = data.length := by
  simp [lossesOf]

lemma gainsOf_mem (dat : List ℚ) :
    ∀ x ∈ gainsOf (dat.map some), ∃ g, x = some g ∧ 0 ≤ g := by
  intro x hx
  simp only [gainsOf, List.mem_map, List.mem_range, List.length_map] at hx
  obtain ⟨i, hi, rfl⟩ := hx
  by_cases h0 : i = 0
  · rw [if_pos h0]
    exact ⟨0, rfl, le_refl 0⟩
  · rw [if_neg h0]
    rw [getD_map_some dat i hi, getD_map_some dat (i - 1) (by omega)]
    simp only [fsub, fgt]
    split
    · rename_i hpos
      exact ⟨dat.getD i 0 - dat.getD (i - 1) 0, rfl, le_of_lt (by simpa using hpos)⟩
    · exact ⟨0, rfl, le_refl 0⟩

lemma lossesOf_mem (dat : List ℚ) :
    ∀ x ∈ lossesOf (dat.map some), ∃ g, x = some g ∧ 0 ≤ g := by
  intro x hx
  simp only [lossesOf, List.mem_map, List.mem_range, List.length_map] at hx
  obtain ⟨i, hi, rfl⟩ := hx
  by_cases h0 : i = 0
  · rw [if_pos h0]
    exact ⟨0, rfl, le_refl 0⟩
  · rw [if_neg h0]
    rw [getD_map_some dat i hi, getD_map_some dat (i - 1) (by omega)]
    simp only [fsub, fgt, fneg]
    split
    · exact ⟨0, rfl, le_refl 0⟩
    · rename_i hnpos
      refine ⟨-(dat.getD i 0 - dat.getD (i - 1) 0), rfl, ?_⟩
      simp only [decide_eq_true_eq] at hnpos
      push_neg at hnpos
      linarith

lemma foldl_fadd_nonneg (l : List F) (h : ∀ x ∈ l, ∃ g, x = some g ∧ 0 ≤ g) :
    ∀ a : ℚ, 0 ≤ a → ∃ s, l.foldl fadd (some a) = some s ∧ 0 ≤ s := by
  induction l with
  | nil => exact fun a ha => ⟨a, rfl, ha⟩
  | cons x xs ih =>
    intro a ha
    obtain ⟨g, hxg, hg⟩ := h x (List.mem_cons_self x xs)
    rw [List.foldl_cons, hxg]
    rw [show fadd (some a) (some g) = some (a + g) from rfl]
    exact ih (fun y hy => h y (List.mem_cons_of_mem x hy)) (a + g) (by linarith)

lemma fsum_nonneg (l : List F) (h : ∀ x ∈ l, ∃ g, x = some g ∧ 0 ≤ g) :
    ∃ s, fsum l = some s ∧ 0 ≤ s :=
  foldl_fadd_nonneg l h 0 le_rfl

lemma foldl_fadd_zero (l : List F) (h : ∀ x ∈ l, x = some 0) :
    ∀ a : ℚ, l.foldl fadd (some a) = some a := by
  induction l with
  | nil => exact fun a => rfl
  | cons x xs ih =>
    intro a
    rw [h x (List.mem_cons_self x xs)]
    show xs.foldl fadd (fadd (some a) (some 0)) = some a
    rw [show fadd (some a) (some 0) = some a by simp [fadd]]
    exact ih (fun y hy => h y (List.mem_cons_of_mem x hy)) a

lemma fsum_zero (l : List F) (h : ∀ x ∈ l, x = some 0) : fsum l = some 0 :=
  foldl_fadd_zero l h 0

lemma rsiVal_bounds (g l : ℚ) (hg : 0 ≤ g) (hl : 0 ≤ l) :
    ∃ v, rsiVal (some g) (some l) = some v ∧ 0 ≤ v ∧ v ≤ 100 := by
  unfold rsiVal
  by_cases h0 : l = 0
  · rw [if_pos (by rw [h0])]
    exact ⟨100, rfl, by norm_num, le_refl 100⟩
  · rw [if_neg (by simpa using h0)]
    have hlpos : 0 < l := lt_of_le_of_ne hl (Ne.symm h0)
    have hql : 0 ≤ g / l := div_nonneg hg hl
    have hden : (0:ℚ) < 1 + g / l := by linarith
    have h1 : fdiv (some g) (some l) = some (g / l) := by
      simp only [fdiv]
      rw [if_neg h0]
    have h2 : fadd (some 1) (some (g / l)) = some (1 + g / l) := rfl
    have h3 : fdiv (some 100) (some (1 + g / l)) = some (100 / (1 + g / l)) := by
      simp only [fdiv]
      rw [if_neg hden.ne']
    have h4 : fsub (some 100) (some (100 / (1 + g / l))) =
        some (100 - 100 / (1 + g / l)) := rfl
    rw [h1, h2, h3, h4]
    have hfrac_pos : 0 < 100 / (1 + g / l) := by positivity
    have hfrac_le : 100 / (1 + g / l) ≤ 100 := by
      apply div_le_self (by norm_num)
      linarith
    exact ⟨100 - 100 / (1 + g / l), rfl, by linarith, by linarith⟩

/-- Every entry the Wilder smoothing loop emits is a defined value in
`[0, 100]`, given nonnegative current averages and nonnegative gain/loss
arrays. -/
lemma rsiGo_bounds (gains losses : List F) (p : Nat) (hp : 0 < p)
    (hg : ∀ x ∈ gains, ∃ g, x = some g ∧ 0 ≤ g)
    (hl : ∀ x ∈ losses, ∃ g, x = some g ∧ 0 ≤ g)
    (hlen : losses.length = gains.length) (i : Nat) (gA lA : ℚ)
    (hgA : 0 ≤ gA) (hlA : 0 ≤ lA) :
    ∀ x ∈ rsiGo gains losses p i (some gA) (some lA),
      ∃ v, x = some v ∧ 0 ≤ v ∧ v ≤ 100 := by
  intro x hx
  unfold rsiGo at hx
  split at hx
  · rename_i hi
    rcases List.mem_cons.mp hx with rfl | hx'
    · exact rsiVal_bounds gA lA hgA hlA
    · by_cases hi1 : i + 1 < gains.length
      · obtain ⟨g', hgeq, hg'⟩ := by
          refine hg (gains.getD (i + 1) none) ?_
          rw [List.getD_eq_getElem _ _ hi1]
          exact List.getElem_mem hi1
        obtain ⟨l', hleq, hl'⟩ := by
          refine hl (losses.getD (i + 1) none) ?_
          rw [List.getD_eq_getElem _ _ (by omega)]
          exact List.getElem_mem (by omega)
        rw [hgeq, hleq] at hx'
        have hcast : (0:ℚ) ≤ ((p - 1 : Nat) : ℚ) := by positivity
        have hGup : fdiv (fadd (fmul (some gA) (some ((p - 1 : Nat) : ℚ))) (some g'))
            (some (p : ℚ)) = some ((gA * ((p - 1 : Nat) : ℚ) + g') / (p : ℚ)) := by
          simp only [fmul, fadd, fdiv]
          rw [if_neg (Nat.cast_ne_zero.mpr hp.ne')]
        have hLup : fdiv (fadd (fmul (some lA) (some ((p - 1 : Nat) : ℚ))) (some l'))
            (some (p : ℚ)) = some ((lA * ((p - 1 : Nat) : ℚ) + l') / (p : ℚ)) := by
          simp only [fmul, fadd, fdiv]
          rw [if_neg (Nat.cast_ne_zero.mpr hp.ne')]
        rw [hGup, hLup] at hx'
        exact rsiGo_bounds gains losses p hp hg hl hlen (i + 1) _ _
          (by positivity) (by positivity) x hx'
      · unfold rsiGo at hx'
        rw [dif_neg hi1] at hx'
        exact absurd hx' (List.not_mem_nil x)
  · exact absurd hx (List.not_mem_nil x)
termination_by gains.length - i

/-- On an all-zero gain/loss pair with zero running averages, the smoothing
loop emits `100` at every index. -/
lemma rsiGo_const_getD (gains losses : List F) (p : Nat) (hp : 0 < p)
    (hg : ∀ x ∈ gains, x = some 0) (hl : ∀ x ∈ losses, x = some 0)
    (hlen : losses.length = gains.length) :
    ∀ j i, i + j < gains.length →
      (rsiGo gains losses p i (some 0) (some 0)).getD j none = some 100 := by
  intro j
  induction j with
  | zero =>
    intro i hij
    unfold rsiGo
    rw [dif_pos (by omega)]
    rw [List.getD_cons_zero]
    unfold rsiVal
    rw [if_pos rfl]
  | succ j ih =>
    intro i hij
    unfold rsiGo
    rw [dif_pos (by omega)]
    rw [List.getD_cons_succ]
    have hg1 : gains.getD (i + 1) none = some 0 := by
      rw [List.getD_eq_getElem _ _ (by omega)]
      exact hg _ (List.getElem_mem (by omega))
    have hl1 : losses.getD (i + 1) none = some 0 := by
      rw [List.getD_eq_getElem _ _ (by omega)]
      exact hl _ (List.getElem_mem (by omega))
    rw [hg1, hl1]
    have hzero : fdiv (fadd (fmul (some 0) (some ((p - 1 : Nat) : ℚ))) (some 0))
        (some (p : ℚ)) = some 0 := by
      simp only [fmul, fadd, fdiv]
      rw [if_neg (Nat.cast_ne_zero.mpr hp.ne')]
      norm_num
    rw [hzero]
    exact ih (i + 1) (by omega)

lemma gainsOf_const (dat : List ℚ) (c : ℚ) (hc : ∀ a ∈ dat, a = c) :
    ∀ x ∈ gainsOf (dat.map some), x = some 0 := by
  intro x hx
  simp only [gainsOf, List.mem_map, List.mem_range, List.length_map] at hx
  obtain ⟨i, hi, rfl⟩ := hx
  by_cases h0 : i = 0
  · rw [if_pos h0]
  · rw [if_neg h0]
    rw [getD_map_some dat i hi, getD_map_some dat (i - 1) (by omega)]
    have h1 : dat.getD i 0 = c := by
      rw [List.getD_eq_getElem _ _ hi]
      exact hc _ (List.getElem_mem hi)
    have h2 : dat.getD (i - 1) 0 = c := by
      rw [List.getD_eq_getElem _ _ (by omega)]
      exact hc _ (List.getElem_mem (by omega))
    rw [h1, h2]
    simp [fsub, fgt]

lemma lossesOf_const (dat : List ℚ) (c : ℚ) (hc : ∀ a ∈ dat, a = c) :
    ∀ x ∈ lossesOf (dat.map some), x = some 0 := by
  intro x hx
  simp only [lossesOf, List.mem_map, List.mem_range, List.length_map] at hx
  obtain ⟨i, hi, rfl⟩ := hx
  by_cases h0 : i = 0
  · rw [if_pos h0]
  · rw [if_neg h0]
    rw [getD_map_some dat i hi, getD_map_some dat (i - 1) (by omega)]
    have h1 : dat.getD i 0 = c := by
      rw [List.getD_eq_getElem _ _ hi]
      exact hc _ (List.getElem_mem hi)
    have h2 : dat.getD (i - 1) 0 = c := by
      rw [List.getD_eq_getElem _ _ (by omega)]
      exact hc _ (List.getElem_mem (by omega))
    rw [h1, h2]
    simp [fsub, fgt, fneg]

/-- C6: on a finite-valued series with `0 < p` and `n ≥ p+1`, every defined
entry of `rsi(s,p)` lies in `[0, 100]`; and on a constant series every defined
index `i ≥ p` holds exactly `100` (the average loss stays zero). -/
theorem C6_rsi_range_and_constant (dat : List ℚ) (p : Nat) (hp : 0 < p)
    (hn : p + 1 ≤ dat.length) :
    (∀ i x, (rsi (dat.map some) p).getD i none = some x → 0 ≤ x ∧ x ≤ 100) ∧
    (∀ c, (∀ a ∈ dat, a = c) →
      ∀ i, p ≤ i → i < dat.length → (rsi (dat.map some) p).getD i none = some 100) := by
  have hguard : ¬(dat.length < p + 1 ∨ p = 0) := by omega
  have hlen : (lossesOf (dat.map some)).length = (gainsOf (dat.map some)).length := by
    rw [gainsOf_length, lossesOf_length]
  constructor
  · intro i x hx
    by_cases hi : i < (rsi (dat.map some) p).length
    · rw [List.getD_eq_getElem _ _ hi] at hx
      have hmem : some x ∈ rsi (dat.map some) p := hx ▸ List.getElem_mem hi
      simp only [rsi, List.length_map, if_neg hguard] at hmem
      rcases List.mem_append.mp hmem with hrep | hgo
      · exact absurd (List.eq_of_mem_replicate hrep) (by simp)
      · have hgmem : ∀ y ∈ ((gainsOf (dat.map some)).drop 1).take p,
            ∃ g, y = some g ∧ 0 ≤ g := fun y hy =>
          gainsOf_mem dat y (List.drop_subset _ _ (List.take_subset _ _ hy))
        have hlmem : ∀ y ∈ ((lossesOf (dat.map some)).drop 1).take p,
            ∃ g, y = some g ∧ 0 ≤ g := fun y hy =>
          lossesOf_mem dat y (List.drop_subset _ _ (List.take_subset _ _ hy))
        obtain ⟨sg, hsg, hsg0⟩ := fsum_nonneg _ hgmem
        obtain ⟨sl, hsl, hsl0⟩ := fsum_nonneg _ hlmem
        rw [hsg, hsl] at hgo
        have hdg : fdiv (some sg) (some (p : ℚ)) = some (sg / (p : ℚ)) := by
          simp only [fdiv]
          rw [if_neg (Nat.cast_ne_zero.mpr hp.ne')]
        have hdl : fdiv (some sl) (some (p : ℚ)) = some (sl / (p : ℚ)) := by
          simp only [fdiv]
          rw [if_neg (Nat.cast_ne_zero.mpr hp.ne')]
        rw [hdg, hdl] at hgo
        obtain ⟨v, hveq, hv0, hv100⟩ := rsiGo_bounds (gainsOf (dat.map some))
          (lossesOf (dat.map some)) p hp (gainsOf_mem dat) (lossesOf_mem dat) hlen
          p (sg / (p : ℚ)) (sl / (p : ℚ)) (by positivity) (by positivity) (some x) hgo
        injection hveq with hveq
        rw [hveq]
        exact ⟨hv0, hv100⟩
    · rw [List.getD_eq_default _ _ (by omega)] at hx
      exact absurd hx (by simp)
  · intro c hc i hpi hin
    simp only [rsi, List.length_map, if_neg hguard]
    rw [List.getD_append_right _ _ _ _ (by simp; omega), List.length_replicate]
    have hgz : fsum (((gainsOf (dat.map some)).drop 1).take p) = some 0 :=
      fsum_zero _ fun y hy =>
        gainsOf_const dat c hc y (List.drop_subset _ _ (List.take_subset _ _ hy))
    have hlz : fsum (((lossesOf (dat.map some)).drop 1).take p) = some 0 :=
      fsum_zero _ fun y hy =>
        lossesOf_const dat c hc y (List.drop_subset _ _ (List.take_subset _ _ hy))
    rw [hgz, hlz]
    have hdz : fdiv (some (0:ℚ)) (some (p : ℚ)) = some 0 := by
      simp only [fdiv]
      rw [if_neg (Nat.cast_ne_zero.mpr hp.ne')]
      norm_num
    rw [hdz]
    have := rsiGo_const_getD (gainsOf (dat.map some)) (lossesOf (dat.map some)) p hp
      (gainsOf_const dat c hc) (lossesOf_const dat c hc) hlen (i - p) p
      (by rw [gainsOf_length, List.length_map]; omega)
    exact this

/-- C6 witness: the theorem applied to the constant series `[5,5,5,5]` with
period 2. -/
theorem C6_rsi_range_and_constant_witness :
    (rsi (([5, 5, 5, 5] : List ℚ).map some) 2).getD 3 none = some 100 :=
  (C6_rsi_range_and_constant ([5, 5, 5, 5] : List ℚ) 2 (by decide) (by decide)).2 5
    (by decide) 3 (by decide) (by decide)

/-! ## C2: a supplied out-of-range parameter panics the scan -/

/-- C2 (code refutation): an explicitly supplied `lookback` of `0` for the
`obv_breakout` pattern is not replaced by the documented default; it reaches
`higher_high`, whose loop indexes `prev_max[i - 1]` at `i = 0` — a usize
underflow followed by an out-of-bounds access, so `run_scan` panics instead of
completing normally on this one-bar universe. -/
theorem C2_obv_breakout_zero_lookback_panics :
    run_scan [("A", tinyData)]
        { scan_type := "obv_breakout", params := [("lookback", .jint 0)],
          date_from := none, date_to := none } = none := by
  with_unfolding_all decide

/-! ## C3: unknown pattern names -/

/-- C3 counterexample: `run_scan` on an unknown pattern name returns exactly
the same `ScanResult` as a successful built-in scan that matched nothing — no
"no such pattern" condition is distinguishable at the `run_scan` boundary. -/
theorem C3_unknown_pattern_counterexample :
    run_scan [("A", tinyData)]
        { scan_type := "nonexistent_pattern", params := [],
          date_from := none, date_to := none } =
      run_scan [("A", tinyData)]
        { scan_type := "golden_cross", params := [],
          date_from := none, date_to := none } ∧
    run_scan [("A", tinyData)]
        { scan_type := "golden_cross", params := [],
          date_from := none, date_to := none } =
      some { «matches» := [], total_tickers_scanned := 1, tickers_with_matches := 0 } := by
  with_unfolding_all decide

lemma dispatch_unknown (d : TickerData) (p : Params) (s : String)
    (h : s ∉ builtin_scan_types) : dispatch d s p = .unknown := by
  simp only [builtin_scan_types, List.mem_cons, List.not_mem_nil, or_false, not_or] at h
  obtain ⟨h1, h2, h3, h4, h5, h6, h7, h8, h9, h10, h11, h12, h13, h14, h15, h16, h17⟩ := h
  simp only [dispatch, if_neg h1, if_neg h2, if_neg h3, if_neg h4, if_neg h5, if_neg h6,
    if_neg h7, if_neg h8, if_neg h9, if_neg h10, if_neg h11, if_neg h12, if_neg h13,
    if_neg h14, if_neg h15, if_neg h16, if_neg h17, get_scan]

/-- C3 amended: a pattern name outside the built-in catalog (the dynamic
registry of this revision being empty) is *not* surfaced distinctly: every
ticker is skipped exactly as if the pattern matched nothing, and `run_scan`
returns an ordinary result with an empty match list and zero
`tickers_with_matches`. -/
theorem C3_unknown_pattern_amended (u : List (String × TickerData)) (q : ScanQuery)
    (h : q.scan_type ∉ builtin_scan_types) :
    run_scan u q =
      some { «matches» := [], total_tickers_scanned := u.length, tickers_with_matches := 0 } := by
  have hsst : ∀ t d, scan_single_ticker t d q = some none := by
    intro t d
    simp only [scan_single_ticker, dispatch_unknown d q.params q.scan_type h]
  have hmapM : ∀ (l : List (String × TickerData)),
      l.mapM (fun td => scan_single_ticker td.1 td.2 q) =
        some (l.map fun _ => (none : Option (List ScanMatch))) := by
    intro l
    induction l with
    | nil => rfl
    | cons td rest ih =>
      rw [List.mapM_cons, hsst, ih]
      rfl
  simp only [run_scan, hmapM, Option.bind_some, Option.pure_def, Option.bind_eq_bind,
    Option.some_bind]
  simp [List.filterMap_map]

/-- C3 amended witness: the amended theorem applied at a concrete universe and
unknown name. -/
theorem C3_unknown_pattern_amended_witness :
    run_scan [("A", tinyData)]
        { scan_type := "no_such_scan", params := [], date_from := none, date_to := none } =
      some { «matches» := [], total_tickers_scanned := 1, tickers_with_matches := 0 } :=
  C3_unknown_pattern_amended [("A", tinyData)]
    { scan_type := "no_such_scan", params := [], date_from := none, date_to := none }
    (by decide)

/-! ## C10: the composite "custom" pattern -/

lemma condEval_eq_none (data : TickerData) (params : Params) (c : String)
    (h : c ∉ custom_condition_names) : condEval data params c = none := by
  simp only [custom_condition_names, List.mem_cons, List.not_mem_nil, or_false,
    not_or] at h
  obtain ⟨h1, h2, h3, h4, h5, h6⟩ := h
  unfold condEval
  split <;> simp_all

/-- The custom-scan loop never looks at an unrecognized condition name: its
result is unchanged when the condition list is filtered down to the six
recognized built-ins. -/
lemma customGo_filter (data : TickerData) (params : Params) :
    ∀ conds acc,
      customGo data params (conds.filter fun c => decide (c ∈ custom_condition_names)) acc =
        customGo data params conds acc := by
  intro conds
  induction conds with
  | nil => intro acc; rfl
  | cons c rest ih =>
    intro acc
    by_cases hC : c ∈ custom_condition_names
    · rw [List.filter_cons_of_pos (by simpa using hC)]
      show customGo data params (c :: _) acc = _
      unfold customGo
      cases hE : condEval data params c with
      | none => exact ih acc
      | some res =>
        cases res with
        | none => rfl
        | some m => exact ih _
    · rw [List.filter_cons_of_neg (by simpa using hC)]
      conv_rhs => unfold customGo
      rw [condEval_eq_none data params c hC]
      exact ih acc

/-- C10: the "custom" composite evaluator silently skips condition names
outside the six recognized built-ins — its result equals the result on the
recognized sublist, and the dynamic registry is never consulted (`customGo`
has no registry fallback) — and it returns an all-false mask of the series
length when the condition list is absent, empty, or entirely
unrecognized. -/
theorem C10_custom_ignores_unrecognized (data : TickerData) (params : Params) :
    ((∀ c ∈ getConditions params, c ∉ custom_condition_names) →
      scan_custom data params = some (List.replicate data.close.length false)) ∧
    (∀ conds acc,
      customGo data params (conds.filter fun c => decide (c ∈ custom_condition_names)) acc =
        customGo data params conds acc) := by
  constructor
  · intro h
    by_cases hemp : (getConditions params).isEmpty
    · simp only [scan_custom, if_pos hemp]
    · simp only [scan_custom, if_neg hemp]
      have hfilter : ((getConditions params).filter
          fun c => decide (c ∈ custom_condition_names)) = [] := by
        rw [List.filter_eq_nil_iff]
        intro a ha
        simpa using h a ha
      rw [← customGo_filter data params (getConditions params) none, hfilter]
      rfl
  · exact customGo_filter data params

/-- C10 witness: a parameter map whose condition list holds only an
unrecognized name yields the all-false mask. -/
theorem C10_custom_ignores_unrecognized_witness :
    scan_custom tinyData [("conditions", .jarr [.jstr "frobnicate"])] =
      some (List.replicate tinyData.close.length false) :=
  (C10_custom_ignores_unrecognized tinyData
    [("conditions", .jarr [.jstr "frobnicate"])]).1 (by decide)

/-! ## C4: date-range filtering is a pure post-filter -/

lemma keepDate_none (d : String) : keepDate none none d = true := rfl

lemma buildMatches_filter (t : String) (d : TickerData) (f t0 : Option String)
    (mask : List Bool) :
    buildMatches t d f t0 mask =
      (buildMatches t d none none mask).filter fun m => keepDate f t0 m.date := by
  unfold buildMatches
  rw [List.filter_filterMap]
  apply List.filterMap_congr
  intro i _
  by_cases hm : mask.getD i false
  · rw [if_pos hm, if_pos hm, if_pos (keepDate_none (d.date.getD i ""))]
    by_cases hk : keepDate f t0 (d.date.getD i "")
    · rw [if_pos hk]
      exact (if_pos hk).symm
    · rw [if_neg hk]
      exact (if_neg hk).symm
  · rw [if_neg hm, if_neg hm]
    rfl

/-- Per-ticker form of the post-filter property: a ranged scan of one ticker
is the unranged scan with its match list filtered by the window (and `None`
when the filtered list is empty). -/
lemma scan_single_ticker_filter (t : String) (d : TickerData) (q : ScanQuery) :
    scan_single_ticker t d q =
      Option.map (fun o =>
          if ((Option.getD o []).filter fun m =>
              keepDate q.date_from q.date_to m.date).isEmpty then none
          else some ((Option.getD o []).filter fun m =>
              keepDate q.date_from q.date_to m.date))
        (scan_single_ticker t d { q with date_from := none, date_to := none }) := by
  unfold scan_single_ticker
  dsimp only
  cases hdisp : dispatch d q.scan_type q.params with
  | unknown => rfl
  | panicked => rfl
  | mask m =>
    dsimp only
    rw [buildMatches_filter t d q.date_from q.date_to m]
    by_cases he : (buildMatches t d none none m).isEmpty
    · have hbm : buildMatches t d none none m = [] := by
        simpa using he
      rw [hbm]
      rfl
    · rw [if_neg he]
      rfl

lemma flatten_filterMap_id {α : Type} (rs : List (Option (List α))) :
    (rs.filterMap id).flatten = (rs.map fun o => o.getD []).flatten := by
  induction rs with
  | nil => rfl
  | cons o rest ih => cases o <;> simp [ih]

/-- C4: the matches of a ranged `run_scan` are exactly the matches of the
unranged scan restricted to dates inside the window; with both bounds
supplied, a date passes the window test iff `from ≤ date ≤ to` in the string
(lexicographic) order. -/
theorem C4_date_range_post_filter (u : List (String × TickerData)) (q : ScanQuery) :
    Option.map (fun r => r.«matches») (run_scan u q) =
      Option.map (fun r => r.«matches».filter fun m => keepDate q.date_from q.date_to m.date)
        (run_scan u { q with date_from := none, date_to := none }) ∧
    (∀ f t0 d, keepDate (some f) (some t0) d = (decide (f ≤ d) && decide (d ≤ t0))) := by
  constructor
  · have hmapM : ∀ (l : List (String × TickerData)),
        l.mapM (fun td => scan_single_ticker td.1 td.2 q) =
          Option.map (List.map fun o =>
              if ((Option.getD o []).filter fun m =>
                  keepDate q.date_from q.date_to m.date).isEmpty then none
              else some ((Option.getD o []).filter fun m =>
                  keepDate q.date_from q.date_to m.date))
            (l.mapM fun td =>
              scan_single_ticker td.1 td.2 { q with date_from := none, date_to := none }) := by
      intro l
      induction l with
      | nil => rfl
      | cons td rest ih =>
        rw [List.mapM_cons, List.mapM_cons, scan_single_ticker_filter td.1 td.2 q, ih]
        cases hA : scan_single_ticker td.1 td.2 { q with date_from := none, date_to := none } with
        | none => rfl
        | some a =>
          cases hB : rest.mapM (fun td =>
              scan_single_ticker td.1 td.2 { q with date_from := none, date_to := none }) with
          | none => rfl
          | some bs => rfl
    simp only [run_scan, hmapM]
    cases hU : u.mapM (fun td =>
        scan_single_ticker td.1 td.2 { q with date_from := none, date_to := none }) with
    | none => rfl
    | some rs =>
      simp only [Option.map_some', Option.pure_def, Option.bind_eq_bind, Option.some_bind]
      congr 1
      rw [flatten_filterMap_id, flatten_filterMap_id, List.map_map, List.filter_flatten,
        List.map_map]
      congr 1
      apply List.map_congr_left
      intro o _
      simp only [Function.comp]
      by_cases ho : ((Option.getD o []).filter fun m =>
          keepDate q.date_from q.date_to m.date).isEmpty
      · rw [if_pos ho]
        have : ((Option.getD o []).filter fun m =>
            keepDate q.date_from q.date_to m.date) = [] := by simpa using ho
        rw [this]
        rfl
      · rw [if_neg ho]
        rfl
  · intro f t0 d
    show ((!decide (d < f)) && (!decide (t0 < d))) = (decide (f ≤ d) && decide (d ≤ t0))
    have h1 : ∀ (x y : String), (!decide (x < y)) = decide (y ≤ x) := by
      intro x y
      by_cases h : x < y
      · simp [h, not_le.mpr h]
      · simp [h, not_lt.mp h]
    rw [h1, h1]

/-! ## C8: ticker order does not affect the result -/

/-- `mapM` over the `Option` monad respects permutations of the input list:
both runs panic together, and on success the outputs are permutations of each
other. -/
lemma mapM_perm {α β : Type} (f : α → Option β) {l1 l2 : List α} (h : l1.Perm l2) :
    ((l1.mapM f).isSome = (l2.mapM f).isSome) ∧
    (∀ r1 r2, l1.mapM f = some r1 → l2.mapM f = some r2 → r1.Perm r2) := by
  induction h with
  | nil =>
    refine ⟨rfl, fun r1 r2 h1 h2 => ?_⟩
    simp only [List.mapM_nil, Option.pure_def, Option.some.injEq] at h1 h2
    subst h1
    subst h2
    exact List.Perm.refl _
  | cons x hperm ih =>
    rename_i t1 t2
    constructor
    · simp only [List.mapM_cons]
      cases f x with
      | none => rfl
      | some y =>
        cases hA : t1.mapM f with
        | none =>
          cases hB : t2.mapM f with
          | none => rfl
          | some r2 =>
            rw [hA, hB] at ih
            simp at ih
        | some r1 =>
          cases hB : t2.mapM f with
          | none =>
            rw [hA, hB] at ih
            simp at ih
          | some r2 => rfl
    · intro r1 r2 h1 h2
      simp only [List.mapM_cons] at h1 h2
      cases hfx : f x with
      | none =>
        rw [hfx] at h1
        simp at h1
      | some y =>
        rw [hfx] at h1 h2
        cases hA : t1.mapM f with
        | none =>
          rw [hA] at h1
          simp at h1
        | some s1 =>
          cases hB : t2.mapM f with
          | none =>
            rw [hB] at h2
            simp at h2
          | some s2 =>
            rw [hA] at h1
            rw [hB] at h2
            simp only [Option.pure_def, Option.bind_eq_bind, Option.some_bind,
              Option.some.injEq] at h1 h2
            subst h1
            subst h2
            exact List.Perm.cons y (ih.2 s1 s2 hA hB)
  | swap x y l =>
    constructor
    · simp only [List.mapM_cons]
      cases f x <;> cases f y <;> cases l.mapM f <;> rfl
    · intro r1 r2 h1 h2
      simp only [List.mapM_cons] at h1 h2
      cases hfx : f x with
      | none =>
        rw [hfx] at h1 h2
        simp at h2
      | some a =>
        cases hfy : f y with
        | none =>
          rw [hfy] at h1
          simp at h1
        | some b =>
          rw [hfx, hfy] at h1 h2
          cases hL : l.mapM f with
          | none =>
            rw [hL] at h1
            simp at h1
          | some s =>
            rw [hL] at h1 h2
            simp only [Option.pure_def, Option.bind_eq_bind, Option.some_bind,
              Option.some.injEq] at h1 h2
            subst h1
            subst h2
            exact List.Perm.swap a b s
  | trans hab hbc ih1 ih2 =>
    rename_i la lb lc
    refine ⟨ih1.1.trans ih2.1, fun r1 r2 h1 h2 => ?_⟩
    cases hB : lb.mapM f with
    | none =>
      rw [h1] at ih1
      rw [hB] at ih1
      simp at ih1
    | some s =>
      exact (ih1.2 r1 s h1 hB).trans (ih2.2 s r2 hB h2)

/-- C8: the ticker iteration order of `run_scan` (the incidental order of the
parallel fan-out over the universe) does not affect the outcome: for any two
orderings of the same universe, the scans panic together, and on success the
match multisets, `total_tickers_scanned` and `tickers_with_matches` agree —
so repeating a scan on identical, unmodified inputs reproduces the same match
set and aggregate counts. -/
theorem C8_run_scan_order_independent (u1 u2 : List (String × TickerData)) (q : ScanQuery)
    (h : u1.Perm u2) :
    ((run_scan u1 q).isSome = (run_scan u2 q).isSome) ∧
    (∀ r1 r2, run_scan u1 q = some r1 → run_scan u2 q = some r2 →
      r1.«matches».Perm r2.«matches» ∧
      r1.total_tickers_scanned = r2.total_tickers_scanned ∧
      r1.tickers_with_matches = r2.tickers_with_matches) := by
  have hM := mapM_perm (fun td => scan_single_ticker td.1 td.2 q) h
  constructor
  · simp only [run_scan]
    cases hA : u1.mapM (fun td => scan_single_ticker td.1 td.2 q) with
    | none =>
      cases hB : u2.mapM (fun td => scan_single_ticker td.1 td.2 q) with
      | none => rfl
      | some r2 =>
        rw [hA, hB] at hM
        simp at hM
    | some r1 =>
      cases hB : u2.mapM (fun td => scan_single_ticker td.1 td.2 q) with
      | none =>
        rw [hA, hB] at hM
        simp at hM
      | some r2 => rfl
  · intro r1 r2 h1 h2
    simp only [run_scan] at h1 h2
    cases hA : u1.mapM (fun td => scan_single_ticker td.1 td.2 q) with
    | none =>
      rw [hA] at h1
      simp at h1
    | some s1 =>
      cases hB : u2.mapM (fun td => scan_single_ticker td.1 td.2 q) with
      | none =>
        rw [hB] at h2
        simp at h2
      | some s2 =>
        rw [hA] at h1
        rw [hB] at h2
        simp only [Option.pure_def, Option.bind_eq_bind, Option.some_bind,
          Option.some.injEq] at h1 h2
        subst h1
        subst h2
        have hperm : s1.Perm s2 := hM.2 s1 s2 hA hB
        have hfm : (s1.filterMap id).Perm (s2.filterMap id) := List.Perm.filterMap id hperm
        exact ⟨List.Perm.flatten hfm, h.length_eq, hfm.length_eq⟩

/-- C8 witness: the theorem applied to a concrete two-ticker universe and its
swapped ordering. -/
theorem C8_run_scan_order_independent_witness :
    ((run_scan [("A", tinyData), ("B", tinyData2)]
        { scan_type := "golden_cross", params := [], date_from := none,
          date_to := none }).isSome =
      (run_scan [("B", tinyData2), ("A", tinyData)]
        { scan_type := "golden_cross", params := [], date_from := none,
          date_to := none }).isSome) ∧
    (∀ r1 r2,
      run_scan [("A", tinyData), ("B", tinyData2)]
        { scan_type := "golden_cross", params := [], date_from := none,
          date_to := none } = some r1 →
      run_scan [("B", tinyData2), ("A", tinyData)]
        { scan_type := "golden_cross", params := [], date_from := none,
          date_to := none } = some r2 →
      r1.«matches».Perm r2.«matches» ∧
      r1.total_tickers_scanned = r2.total_tickers_scanned ∧
      r1.tickers_with_matches = r2.tickers_with_matches) :=
  C8_run_scan_order_independent [("A", tinyData), ("B", tinyData2)]
    [("B", tinyData2), ("A", tinyData)]
    { scan_type := "golden_cross", params := [], date_from := none, date_to := none }
    (List.Perm.swap ("B", tinyData2) ("A", tinyData) [])

/-! ## C9: the monthly bars partition the series -/

lemma chained_cons_start (s e : Nat) (b : MonthlyBar) (rest : List MonthlyBar)
    (h : ChainedFrom s e (b :: rest)) : b.start_idx = s := by
  cases rest with
  | nil => exact h.1
  | cons b2 r2 => exact h.1

lemma chained_le : ∀ (l : List MonthlyBar) (s e : Nat), ChainedFrom s e l → s ≤ e := by
  intro l
  induction l with
  | nil => intro s e h; exact absurd h (by simp [ChainedFrom])
  | cons b rest ih =>
    intro s e h
    cases rest with
    | nil =>
      obtain ⟨h1, h2, h3⟩ := h
      omega
    | cons b2 r2 =>
      obtain ⟨h1, h2, h3⟩ := h
      have := ih (b.end_idx + 1) e h3
      omega

lemma chained_mem_bounds : ∀ (l : List MonthlyBar) (s e : Nat), ChainedFrom s e l →
    ∀ b ∈ l, s ≤ b.start_idx ∧ b.start_idx ≤ b.end_idx ∧ b.end_idx ≤ e := by
  intro l
  induction l with
  | nil => intro s e _ b hb; exact absurd hb (List.not_mem_nil b)
  | cons b0 rest ih =>
    intro s e h b hb
    cases rest with
    | nil =>
      obtain ⟨h1, h2, h3⟩ := h
      rcases List.mem_singleton.mp hb with rfl
      omega
    | cons b2 r2 =>
      obtain ⟨h1, h2, h3⟩ := h
      have hle := chained_le _ _ _ h3
      rcases List.mem_cons.mp hb with rfl | hb'
      · omega
      · have := ih (b0.end_idx + 1) e h3 b hb'
        omega

lemma chained_getD_adjacent : ∀ (l : List MonthlyBar) (s e : Nat), ChainedFrom s e l →
    ∀ k, k + 1 < l.length →
      (l.getD (k + 1) default).start_idx = (l.getD k default).end_idx + 1 := by
  intro l
  induction l with
  | nil => intro s e _ k hk; simp at hk
  | cons b0 rest ih =>
    intro s e h k hk
    cases rest with
    | nil => simp at hk
    | cons b2 r2 =>
      obtain ⟨h1, h2, h3⟩ := h
      cases k with
      | zero =>
        simp only [List.getD_cons_succ, List.getD_cons_zero]
        exact chained_cons_start _ _ _ _ h3
      | succ k' =>
        simp only [List.getD_cons_succ]
        exact ih (b0.end_idx + 1) e h3 k' (by simpa using hk)

lemma chained_last : ∀ (l : List MonthlyBar) (s e : Nat), ChainedFrom s e l →
    (l.getD (l.length - 1) default).end_idx = e := by
  intro l
  induction l with
  | nil => intro s e h; exact absurd h (by simp [ChainedFrom])
  | cons b0 rest ih =>
    intro s e h
    cases rest with
    | nil =>
      obtain ⟨h1, h2, h3⟩ := h
      simpa using h2
    | cons b2 r2 =>
      obtain ⟨h1, h2, h3⟩ := h
      have hlen : (b0 :: b2 :: r2).length - 1 = ((b2 :: r2).length - 1) + 1 := by
        simp
      rw [hlen, List.getD_cons_succ]
      exact ih (b0.end_idx + 1) e h3

lemma chained_start_strictMono (l : List MonthlyBar) (s e : Nat) (h : ChainedFrom s e l) :
    ∀ j k, j < k → k < l.length →
      (l.getD j default).start_idx < (l.getD k default).start_idx := by
  have hstep : ∀ k, k + 1 < l.length →
      (l.getD k default).start_idx < (l.getD (k + 1) default).start_idx := by
    intro k hk
    rw [chained_getD_adjacent l s e h k hk]
    have hmem : l.getD k default ∈ l := by
      rw [List.getD_eq_getElem _ _ (by omega)]
      exact List.getElem_mem (by omega)
    have := (chained_mem_bounds l s e h _ hmem).2.1
    omega
  intro j k hjk hk
  induction k with
  | zero => omega
  | succ k' ih =>
    by_cases hjk' : j = k'
    · rw [hjk']
      exact hstep k' hk
    · exact lt_trans (ih (by omega) (by omega)) (hstep k' hk)

/-- The loop invariant of `build_monthly_bars`: called with the open bar
covering `[start_idx, i-1]`, all of it in month `cm`, the emitted bars chain
contiguously from `start_idx` to `n-1` and each bar's dates share one month
key. -/
lemma buildBarsGo_spec (data : TickerData) (n i start_idx : Nat) (cm : String) (o h l v : ℚ)
    (h1 : 1 ≤ i) (h2 : i ≤ n) (h3 : start_idx ≤ i - 1)
    (hcm : cm = month_key (data.date.getD start_idx ""))
    (hall : ∀ j, start_idx ≤ j → j < i → month_key (data.date.getD j "") = cm) :
    ChainedFrom start_idx (n - 1) (buildBarsGo data n i cm start_idx o h l v) ∧
    ∀ b ∈ buildBarsGo data n i cm start_idx o h l v, BarMonthsOk data b := by
  unfold buildBarsGo
  split
  · rename_i hlt
    by_cases hm : month_key (data.date.getD i "") ≠ cm
    · rw [if_pos hm]
      have hrec := buildBarsGo_spec data n (i + 1) i (month_key (data.date.getD i ""))
        (data.open_.getD i 0) (data.high.getD i 0) (data.low.getD i 0) (data.volume.getD i 0)
        (by omega) (by omega) (by omega) rfl
        (fun j hj1 hj2 => by
          have hji : j = i := by omega
          rw [hji])
      constructor
      · cases hres : buildBarsGo data n (i + 1) (month_key (data.date.getD i "")) i
            (data.open_.getD i 0) (data.high.getD i 0) (data.low.getD i 0)
            (data.volume.getD i 0) with
        | nil =>
          rw [hres] at hrec
          exact absurd hrec.1 (by simp [ChainedFrom])
        | cons b2 rest2 =>
          rw [hres] at hrec
          refine ⟨rfl, show start_idx ≤ i - 1 from h3, ?_⟩
          show ChainedFrom ((i - 1) + 1) (n - 1) (b2 :: rest2)
          rw [show (i - 1) + 1 = i from by omega]
          exact hrec.1
      · intro b hb
        rcases List.mem_cons.mp hb with rfl | hb'
        · intro j hj1 hj2
          rw [hall j hj1 (by simp at hj2 ⊢; omega), hcm]
        · exact hrec.2 b hb'
    · rw [if_neg hm]
      push_neg at hm
      exact buildBarsGo_spec data n (i + 1) start_idx cm o (max h (data.high.getD i 0))
        (min l (data.low.getD i 0)) (v + data.volume.getD i 0)
        (by omega) (by omega) (by omega) hcm
        (fun j hj1 hj2 => by
          by_cases hji : j = i
          · rw [hji, hm]
          · exact hall j hj1 (by omega))
  · rename_i hge
    have hin : i = n := by omega
    constructor
    · refine ⟨rfl, rfl, show start_idx ≤ n - 1 from by omega⟩
    · intro b hb
      rcases List.mem_singleton.mp hb with rfl
      intro j hj1 hj2
      rw [hall j hj1 (by simp at hj2 ⊢; omega), hcm]
termination_by n - i

/-- `build_monthly_bars` on a non-empty series yields a contiguous chain of
month-homogeneous bars over `[0, n-1]`. -/
lemma build_monthly_bars_spec (data : TickerData) (hne : 0 < data.close.length) :
    ChainedFrom 0 (data.close.length - 1) (build_monthly_bars data) ∧
    ∀ b ∈ build_monthly_bars data, BarMonthsOk data b := by
  unfold build_monthly_bars
  rw [if_neg (by omega)]
  exact buildBarsGo_spec data data.close.length 1 0 (month_key (data.date.getD 0 ""))
    (data.open_.getD 0 0) (data.high.getD 0 0) (data.low.getD 0 0) (data.volume.getD 0 0)
    le_rfl hne (by omega) rfl
    (fun j hj1 hj2 => by
      have hj0 : j = 0 := by omega
      rw [hj0])

/-- C9: for a non-empty well-formed series with non-decreasing dates, the
monthly bars are non-empty and partition the index range: the first bar starts
at 0, each bar ends no later than `n-1` and not before it starts, consecutive
bars are adjacent, the last bar ends at `n-1`, and all dates inside one bar
share the bar's 7-character year-month key. -/
theorem C9_monthly_bars_partition (data : TickerData) (_hwf : data.WellFormed)
    (hne : 0 < data.close.length) (_hsorted : data.date.Pairwise (· ≤ ·)) :
    build_monthly_bars data ≠ [] ∧
    ((build_monthly_bars data).getD 0 default).start_idx = 0 ∧
    (∀ k, k + 1 < (build_monthly_bars data).length →
      ((build_monthly_bars data).getD (k + 1) default).start_idx =
        ((build_monthly_bars data).getD k default).end_idx + 1) ∧
    ((build_monthly_bars data).getD ((build_monthly_bars data).length - 1) default).end_idx =
      data.close.length - 1 ∧
    (∀ b ∈ build_monthly_bars data, b.start_idx ≤ b.end_idx ∧
      b.end_idx ≤ data.close.length - 1 ∧
      ∀ j, b.start_idx ≤ j → j ≤ b.end_idx →
        month_key (data.date.getD j "") = month_key (data.date.getD b.start_idx "")) := by
  obtain ⟨hchain, hmonths⟩ := build_monthly_bars_spec data hne
  refine ⟨?_, ?_, ?_, ?_, ?_⟩
  · cases hB : build_monthly_bars data with
    | nil =>
      rw [hB] at hchain
      exact absurd hchain (by simp [ChainedFrom])
    | cons b rest => simp
  · cases hB : build_monthly_bars data with
    | nil =>
      rw [hB] at hchain
      exact absurd hchain (by simp [ChainedFrom])
    | cons b rest =>
      rw [hB] at hchain
      simpa using chained_cons_start _ _ _ _ hchain
  · intro k hk
    exact chained_getD_adjacent _ _ _ hchain k hk
  · exact chained_last _ _ _ hchain
  · intro b hb
    have hbounds := chained_mem_bounds _ _ _ hchain b hb
    exact ⟨hbounds.2.1, hbounds.2.2, hmonths b hb⟩

/-- C9 witness: the theorem applied to the concrete two-month series. -/
theorem C9_monthly_bars_partition_witness :
    build_monthly_bars twoMonthData ≠ [] ∧
    ((build_monthly_bars twoMonthData).getD 0 default).start_idx = 0 ∧
    (∀ k, k + 1 < (build_monthly_bars twoMonthData).length →
      ((build_monthly_bars twoMonthData).getD (k + 1) default).start_idx =
        ((build_monthly_bars twoMonthData).getD k default).end_idx + 1) ∧
    ((build_monthly_bars twoMonthData).getD
        ((build_monthly_bars twoMonthData).length - 1) default).end_idx =
      twoMonthData.close.length - 1 ∧
    (∀ b ∈ build_monthly_bars twoMonthData, b.start_idx ≤ b.end_idx ∧
      b.end_idx ≤ twoMonthData.close.length - 1 ∧
      ∀ j, b.start_idx ≤ j → j ≤ b.end_idx →
        month_key (twoMonthData.date.getD j "") =
          month_key (twoMonthData.date.getD b.start_idx "")) :=
  C9_monthly_bars_partition twoMonthData (by decide) (by decide)
    (by with_unfolding_all decide)

/-! ## C7: the monthly gap-drop scenario -/

lemma getD_set_true (lb : List Bool) (m k : Nat) :
    ((lb.set m true).getD k false = true) ↔ ((m = k ∧ k < lb.length) ∨ lb.getD k false = true) := by
  rw [List.getD_eq_getElem?_getD, List.getD_eq_getElem?_getD, List.getElem?_set]
  by_cases hmk : m = k
  · rw [if_pos hmk]
    by_cases hlen : m < lb.length
    · subst hmk
      simp [hlen]
    · subst hmk
      rw [if_neg hlen, List.getElem?_eq_none (by omega)]
      simp
      omega
  · rw [if_neg hmk]
    simp [hmk]

lemma getD_replicate_false (n k : Nat) : (List.replicate n false).getD k false = false := by
  by_cases hk : k < n
  · rw [List.getD_eq_getElem _ _ (by simpa using hk)]
    simp
  · rw [List.getD_eq_default _ _ (by simpa using hk)]

lemma length_foldl_set (f : List Bool → Nat → List Bool) (C : Nat → Bool) (g : Nat → Nat)
    (hf : ∀ res i, f res i = if C i then res.set (g i) true else res) :
    ∀ (l : List Nat) (init : List Bool), (l.foldl f init).length = init.length := by
  intro l
  induction l with
  | nil => intro init; rfl
  | cons i rest ih =>
    intro init
    rw [List.foldl_cons, ih, hf]
    by_cases hC : C i
    · rw [if_pos hC, List.length_set]
    · rw [if_neg hC]

/-- The guarded-write loop of `scan_monthly_gap_drop`: index `k` of the final
mask is set iff it was set initially or some processed loop index `i` passes
the condition and writes (in bounds) to `k`. -/
lemma foldl_set_spec (f : List Bool → Nat → List Bool) (C : Nat → Bool) (g : Nat → Nat)
    (hf : ∀ res i, f res i = if C i then res.set (g i) true else res) :
    ∀ (l : List Nat) (init : List Bool) (k : Nat),
      ((l.foldl f init).getD k false = true ↔
        (init.getD k false = true ∨ ∃ i ∈ l, C i = true ∧ g i = k ∧ k < init.length)) := by
  intro l
  induction l with
  | nil =>
    intro init k
    simp
  | cons i rest ih =>
    intro init k
    rw [List.foldl_cons, hf]
    by_cases hC : C i
    · rw [if_pos hC, ih]
      rw [getD_set_true, List.length_set]
      constructor
      · rintro ((⟨rfl, hk⟩ | hinit) | ⟨i', hi', hC', hg', hk'⟩)
        · exact Or.inr ⟨i, List.mem_cons_self i rest, hC, rfl, hk⟩
        · exact Or.inl hinit
        · exact Or.inr ⟨i', List.mem_cons_of_mem i hi', hC', hg', hk'⟩
      · rintro (hinit | ⟨i', hi', hC', hg', hk'⟩)
        · exact Or.inl (Or.inr hinit)
        · rcases List.mem_cons.mp hi' with rfl | hi''
          · exact Or.inl (Or.inl ⟨hg'.symm ▸ rfl, hg' ▸ hk'⟩)
          · exact Or.inr ⟨i', hi'', hC', hg', hk'⟩
    · rw [if_neg hC, ih]
      constructor
      · rintro (hinit | ⟨i', hi', hC', hg', hk'⟩)
        · exact Or.inl hinit
        · exact Or.inr ⟨i', List.mem_cons_of_mem i hi', hC', hg', hk'⟩
      · rintro (hinit | ⟨i', hi', hC', hg', hk'⟩)
        · exact Or.inl hinit
        · rcases List.mem_cons.mp hi' with rfl | hi''
          · rw [hC'] at hC
            exact absurd rfl hC
          · exact Or.inr ⟨i', hi'', hC', hg', hk'⟩

/-- C7: with `gap_pct = 5`, `event_on` at its default, a prior-month close of
100 and a current-month open of 90 (a −10% gap), the `candle="bearish"` scan
fires at the current month's first trading index exactly when that month
closes below its open, and the `candle="bullish"` scan does not fire there
when the month closes below its open. -/
theorem C7_monthly_gap_drop_scenario (data : TickerData) (params1 params2 : Params) (i : Nat)
    (hgap1 : getF64 params1 ("gap_pct") 5 = 5)
    (hcandle1 : getStr params1 ("candle") ("any") = "bearish")
    (hevent1 : getStr params1 ("event_on") ("start") = "start")
    (hgap2 : getF64 params2 ("gap_pct") 5 = 5)
    (hcandle2 : getStr params2 ("candle") ("any") = "bullish")
    (hevent2 : getStr params2 ("event_on") ("start") = "start")
    (h1 : 1 ≤ i) (h2 : i < (build_monthly_bars data).length)
    (hprev : ((build_monthly_bars data).getD (i - 1) default).close = 100)
    (hcurr : ((build_monthly_bars data).getD i default).open_ = 90) :
    ((scan_monthly_gap_drop data params1).getD
        ((build_monthly_bars data).getD i default).start_idx false = true ↔
      ((build_monthly_bars data).getD i default).close <
        ((build_monthly_bars data).getD i default).open_) ∧
    (((build_monthly_bars data).getD i default).close <
        ((build_monthly_bars data).getD i default).open_ →
      (scan_monthly_gap_drop data params2).getD
        ((build_monthly_bars data).getD i default).start_idx false = false) := by
  have hne : 0 < data.close.length := by
    by_contra hc
    have hz : data.close.length = 0 := by omega
    have hnil : build_monthly_bars data = [] := by
      unfold build_monthly_bars
      rw [if_pos hz]
    rw [hnil] at h2
    simp at h2
  obtain ⟨hchain, _⟩ := build_monthly_bars_spec data hne
  have hlen2 : ¬((build_monthly_bars data).length < 2) := by omega
  have habs5 : |(5:ℚ)| = 5 := by norm_num
  have hbear : ("bearish" : String).toLower = "bearish" := by with_unfolding_all decide
  have hbull : ("bullish" : String).toLower = "bullish" := by with_unfolding_all decide
  have hstart : ("start" : String).toLower = "start" := by with_unfolding_all decide
  have hf1 : ∀ (res : List Bool) (j : Nat), gapStep data params1 res j =
      if gapFires 5 ("bearish") ((build_monthly_bars data).getD (j - 1) default)
          ((build_monthly_bars data).getD j default) then
        res.set ((build_monthly_bars data).getD j default).start_idx true
      else res := by
    intro res j
    unfold gapStep
    rw [hgap1, hcandle1, hevent1, habs5, hbear, hstart]
    rw [if_neg (by decide : ¬(("start" : String) = "end" ∨ ("start" : String) = "close"))]
  have hf2 : ∀ (res : List Bool) (j : Nat), gapStep data params2 res j =
      if gapFires 5 ("bullish") ((build_monthly_bars data).getD (j - 1) default)
          ((build_monthly_bars data).getD j default) then
        res.set ((build_monthly_bars data).getD j default).start_idx true
      else res := by
    intro res j
    unfold gapStep
    rw [hgap2, hcandle2, hevent2, habs5, hbull, hstart]
    rw [if_neg (by decide : ¬(("start" : String) = "end" ∨ ("start" : String) = "close"))]
  have hfire1 : gapFires 5 ("bearish") ((build_monthly_bars data).getD (i - 1) default)
      ((build_monthly_bars data).getD i default) =
      decide (((build_monthly_bars data).getD i default).close < 90) := by
    unfold gapFires
    rw [hprev, hcurr]
    rw [if_neg (by norm_num : ¬(100:ℚ) = 0)]
    rw [if_neg (by norm_num : ¬((90:ℚ) - 100) / 100 * 100 > -5)]
    rw [if_neg (by decide : ¬("bearish" : String) = "bullish")]
    rw [if_pos rfl]
  have hfire2 : gapFires 5 ("bullish") ((build_monthly_bars data).getD (i - 1) default)
      ((build_monthly_bars data).getD i default) =
      decide (((build_monthly_bars data).getD i default).close > 90) := by
    unfold gapFires
    rw [hprev, hcurr]
    rw [if_neg (by norm_num : ¬(100:ℚ) = 0)]
    rw [if_neg (by norm_num : ¬((90:ℚ) - 100) / 100 * 100 > -5)]
    rw [if_pos rfl]
  have hinj : ∀ j, j < (build_monthly_bars data).length →
      ((build_monthly_bars data).getD j default).start_idx =
        ((build_monthly_bars data).getD i default).start_idx → j = i := by
    intro j hj heq
    rcases lt_trichotomy j i with hji | hji | hji
    · have := chained_start_strictMono _ _ _ hchain j i hji h2
      omega
    · exact hji
    · have := chained_start_strictMono _ _ _ hchain i j hji hj
      omega
  have hKlt : ((build_monthly_bars data).getD i default).start_idx < data.close.length := by
    have hmem : (build_monthly_bars data).getD i default ∈ build_monthly_bars data := by
      rw [List.getD_eq_getElem _ _ h2]
      exact List.getElem_mem h2
    have hb := chained_mem_bounds _ _ _ hchain _ hmem
    omega
  rw [hcurr]
  constructor
  · simp only [scan_monthly_gap_drop]
    rw [if_neg hlen2]
    rw [foldl_set_spec (gapStep data params1)
      (fun j => gapFires 5 ("bearish") ((build_monthly_bars data).getD (j - 1) default)
        ((build_monthly_bars data).getD j default))
      (fun j => ((build_monthly_bars data).getD j default).start_idx) hf1]
    constructor
    · rintro (habs | ⟨j, hj, hCj, hgj, hK⟩)
      · rw [getD_replicate_false] at habs
        simp at habs
      · have hjlen : j < (build_monthly_bars data).length := by
          rcases List.mem_range'_1.mp hj with ⟨hj1, hj2⟩
          omega
        have hji : j = i := hinj j hjlen hgj
        subst hji
        rw [hfire1] at hCj
        simpa using hCj
    · intro hlt
      refine Or.inr ⟨i, ?_, ?_, rfl, ?_⟩
      · rw [List.mem_range'_1]
        omega
      · rw [hfire1]
        simpa using hlt
      · rw [List.length_replicate]
        exact hKlt
  · intro hlt
    simp only [scan_monthly_gap_drop]
    rw [if_neg hlen2]
    rw [Bool.eq_false_iff]
    intro htrue
    rw [foldl_set_spec (gapStep data params2)
      (fun j => gapFires 5 ("bullish") ((build_monthly_bars data).getD (j - 1) default)
        ((build_monthly_bars data).getD j default))
      (fun j => ((build_monthly_bars data).getD j default).start_idx) hf2] at htrue
    rcases htrue with habs | ⟨j, hj, hCj, hgj, hK⟩
    · rw [getD_replicate_false] at habs
      simp at habs
    · have hjlen : j < (build_monthly_bars data).length := by
        rcases List.mem_range'_1.mp hj with ⟨hj1, hj2⟩
        omega
      have hji : j = i := hinj j hjlen hgj
      subst hji
      rw [hfire2] at hCj
      simp only [decide_eq_true_eq] at hCj
      linarith

/-- C7 witness: the theorem applied to the concrete two-month series with
concrete parameter maps. -/
theorem C7_monthly_gap_drop_scenario_witness :
    ((scan_monthly_gap_drop twoMonthData
        [("gap_pct", .jfloat 5), ("candle", .jstr "bearish")]).getD
        ((build_monthly_bars twoMonthData).getD 1 default).start_idx false = true ↔
      ((build_monthly_bars twoMonthData).getD 1 default).close <
        ((build_monthly_bars twoMonthData).getD 1 default).open_) ∧
    (((build_monthly_bars twoMonthData).getD 1 default).close <
        ((build_monthly_bars twoMonthData).getD 1 default).open_ →
      (scan_monthly_gap_drop twoMonthData
        [("gap_pct", .jfloat 5), ("candle", .jstr "bullish")]).getD
        ((build_monthly_bars twoMonthData).getD 1 default).start_idx false = false) :=
  C7_monthly_gap_drop_scenario twoMonthData
    [("gap_pct", .jfloat 5), ("candle", .jstr "bearish")]
    [("gap_pct", .jfloat 5), ("candle", .jstr "bullish")] 1
    (by with_unfolding_all decide) (by with_unfolding_all decide)
    (by with_unfolding_all decide) (by with_unfolding_all decide)
    (by with_unfolding_all decide) (by with_unfolding_all decide)
    (by decide) (by with_unfolding_all decide)
    (by with_unfolding_all decide) (by with_unfolding_all decide)

end Retro
